import Mathlib

/-!
Shallow embedding of the OctoHuman/file-tracker repository.

The model covers the metadata store (`file_metadata_db.py` and its newer
revision `file_tracker/file_metadata_db.py`), the descriptor serialization
(`file_metadata.py`), and the two-phase reconciliation engine
(`update_database.py`: `prune_deleted_files` then `register_new_files`).

Filesystem paths are modelled as canonical absolute strings (the code stores
`str(path.resolve())`, for which Python's `Path`/`str` round trip is the
identity).  Machine-level details (SQLite wire format, gzip) are abstracted:
the store is the list of its rows, keyed by `path` (primary key).  Python
exceptions are modelled by the `PyErr` type and fallible operations return
`Except PyErr`.
-/

deriving instance DecidableEq for Except

namespace FileTracker

/-- Error taxonomy of the spec, mapping the Python exceptions raised by the
code: `FileNotFoundError` is `notFound`, `FileExistsError` is `alreadyExists`,
`ValueError`/`TypeError` on malformed input is `validation`,
`PermissionError` is `permissionDenied`, the SQLite primary-key violation is
`integrityViolation`, the `TypeError` raised for symlinks by
`FileMetadata.__init__` is `unsupportedInput`, and the
`AssertionError`/`RuntimeError` raised by mutating calls on a read-only store
is `modeError`. -/
inductive PyErr where
  | notFound
  | alreadyExists
  | validation
  | permissionDenied
  | integrityViolation
  | unsupportedInput
  | modeError
  deriving DecidableEq

/-- Row of the `files` table: `path text primary key, hash blob, size int,
mtime int, fs_id int` (schema created by `_bootstrap_new_db`).  It also
serves as the recorded descriptor `DbFileMetadata`, whose fields are exactly
these. -/
structure DbRecord where
  path : String
  hash : List Nat
  size : Int
  mtime : Int
  fs_id : Int
  deriving DecidableEq

/-- Dict produced by `FileMetadata.as_sql_dict`: keys `path`, `size`,
`mtime`, `hash` (which is `None` unless `include_hash` is set) and `fs_id`. -/
structure SqlDict where
  path : String
  size : Int
  mtime : Int
  hash : Option (List Nat)
  fs_id : Int
  deriving DecidableEq

/-- Embeds `FileMetadata.as_sql_dict(include_hash)` applied to a fully
populated descriptor: all fields are copied, and `hash` is `None` when
`include_hash` is false. -/
def as_sql_dict (r : DbRecord) (include_hash : Bool) : SqlDict :=
  { path := r.path
    size := r.size
    mtime := r.mtime
    hash := if include_hash then some r.hash else none
    fs_id := r.fs_id }

/-- Embeds `DbFileMetadata.__init__`: validates that every required field of
the dict is present and well typed (in the typed model the only possible
failure is an absent `hash`, matching the `TypeError` on
`file_dict["hash"]` not being `bytes`), and stores the fields verbatim.  It
takes no filesystem argument: the construction never touches the disk. -/
def DbFileMetadata_of_dict (d : SqlDict) : Except PyErr DbRecord :=
  match d.hash with
  | none => .error .validation
  | some h =>
      .ok { path := d.path, hash := h, size := d.size, mtime := d.mtime, fs_id := d.fs_id }

/-- Open store handle: the `readonly` flag of `FileMetadataDb` plus the rows
of its `files` table. -/
structure Db where
  readonly : Bool
  files : List DbRecord
  deriving DecidableEq

/-- Embeds `FileMetadataDb.get_file`: `SELECT * FROM files WHERE path = ?`
returning the first matching row or `None`. -/
def get_file (db : Db) (p : String) : Option DbRecord :=
  db.files.find? (fun r => r.path == p)

/-- Embeds `FileMetadataDb.add_file`: rejected in read-only mode; the
`INSERT` violates the `path` primary key when a row with that path exists;
otherwise the row is appended. -/
def add_file (db : Db) (r : DbRecord) : Except PyErr Db :=
  if db.readonly then .error .modeError
  else if (get_file db r.path).isSome then .error .integrityViolation
  else .ok { db with files := db.files ++ [r] }

/-- Embeds `FileMetadataDb.update_file`: rejected in read-only mode; the
`UPDATE ... WHERE path = ?` rewrites every row with that path, and a zero
rowcount raises `FileNotFoundError`. -/
def update_file (db : Db) (r : DbRecord) : Except PyErr Db :=
  if db.readonly then .error .modeError
  else if (get_file db r.path).isSome then
    .ok { db with files := db.files.map (fun x => if x.path == r.path then r else x) }
  else .error .notFound

/-- Embeds `FileMetadataDb.remove_file`: rejected in read-only mode; the
`DELETE ... WHERE path = ?` removes every row with that path, and a zero
rowcount raises `FileNotFoundError`. -/
def remove_file (db : Db) (p : String) : Except PyErr Db :=
  if db.readonly then .error .modeError
  else if (get_file db p).isSome then
    .ok { db with files := db.files.filter (fun x => ¬(x.path == p)) }
  else .error .notFound

/-- Embeds `FileMetadataDb.get_files_matching_hash` of the
`file_tracker/file_metadata_db.py` revision: the argument must be exactly 32
bytes (`ValueError` otherwise), then `SELECT * FROM files WHERE hash = ?`
yields the matching rows. -/
def get_files_matching_hash (db : Db) (h : List Nat) : Except PyErr (List DbRecord) :=
  if h.length ≠ 32 then .error .validation
  else .ok (db.files.filter (fun r => r.hash == h))

/-- Host filesystem view of the store files: which paths hold a persisted
store, and the rows recorded there. -/
structure Disk where
  stores : List (String × List DbRecord)
  deriving DecidableEq

/-- Embeds `FileMetadataDb.__init__`: with `create_new_db` it runs
`_bootstrap_new_db` (rejects read-only mode, refuses to clobber an existing
path, creates an empty `files` table and a read-write handle); without it,
`_connect_to_existing_db` requires the path to exist and opens a handle in
the requested mode. -/
def open_db (d : Disk) (p : String) (readonly : Bool) (create_new_db : Bool) :
    Except PyErr (Disk × Db) :=
  if create_new_db then
    if readonly then .error .validation
    else if (d.stores.lookup p).isSome then .error .alreadyExists
    else .ok ({ stores := (p, []) :: d.stores }, { readonly := false, files := [] })
  else
    match d.stores.lookup p with
    | none => .error .notFound
    | some rows => .ok (d, { readonly := readonly, files := rows })

/-- Directory entry as seen by the register walk.  `is_regular` is the value
of Python's `Path.is_file()` (it follows symlinks, so a symlink to a regular
file has `is_regular = true` and `is_symlink = true`).  `stat_ok` is whether
`stat` on the path is permitted — when it is not, `Path.is_file()` raises
`PermissionError` (`EACCES` is not in `pathlib`'s ignored errno set).
`read_ok` is whether opening and reading the content for hashing succeeds.
`content_hash` is the SHA-256 digest of the current content. -/
structure DirEntry where
  path : String
  is_regular : Bool
  is_symlink : Bool
  stat_ok : Bool
  read_ok : Bool
  size : Int
  mtime : Int
  fs_id : Int
  content_hash : List Nat
  deriving DecidableEq

/-- World state for one pass: all live filesystem entries, and the
configured roots (the `filesystems` dict of the config) as pairs of the
configured `fs_id` and the list of paths `utils.walk_files` yields under
that root, in walk order. -/
structure World where
  live : List DirEntry
  roots : List (Int × List String)
  deriving DecidableEq

/-- Looks up the live entry at a path. -/
def lookup_live (w : World) (p : String) : Option DirEntry :=
  w.live.find? (fun e => e.path == p)

/-- Embeds `path.is_file()` as used by `prune_deleted_files`: a missing path
gives `False` (`ENOENT` is ignored by `pathlib`), an inaccessible one raises
`PermissionError`, otherwise it reports whether the path resolves to a
regular file. -/
def is_file_check (w : World) (p : String) : Except PyErr Bool :=
  match lookup_live w p with
  | none => .ok false
  | some e => if e.stat_ok = false then .error .permissionDenied else .ok e.is_regular

/-- Actions of the history log (keys of `LOG_ACTIONS`). -/
inductive Action where
  | new
  | update
  | delete
  | skip
  | error
  deriving DecidableEq

/-- Reasons of the history log (values of `LOG_ACTIONS`). -/
inductive Reason where
  | new_file
  | changed
  | nonexistent
  | invalid_fs_id
  | unchanged
  | unexpected_fs_id
  deriving DecidableEq

/-- Row of the history CSV: `[action, reason, path, new_hash]`. -/
structure HistEntry where
  action : Action
  reason : Reason
  path : String
  new_hash : Option (List Nat)
  deriving DecidableEq

/-- Embeds `FileMetadataHistoryLog.add` composed with `log_change`: the
`new_hash` column is populated only for the `new` and `update` actions. -/
def log_change (action : Action) (reason : Reason) (p : String) (h : List Nat) : HistEntry :=
  { action := action
    reason := reason
    path := p
    new_hash := if action = Action.new ∨ action = Action.update then some h else none }

/-- Counters `files_added`, `files_updated`, `files_deleted`,
`files_skipped`, `files_error` of `update_database.py`. -/
structure Counters where
  added : Nat
  updated : Nat
  deleted : Nat
  skipped : Nat
  errors : Nat
  deriving DecidableEq

def Counters.plus (a b : Counters) : Counters :=
  ⟨a.added + b.added, a.updated + b.updated, a.deleted + b.deleted,
   a.skipped + b.skipped, a.errors + b.errors⟩

def czero : Counters := ⟨0, 0, 0, 0, 0⟩
def cadd : Counters := ⟨1, 0, 0, 0, 0⟩
def cupd : Counters := ⟨0, 1, 0, 0, 0⟩
def cdel : Counters := ⟨0, 0, 1, 0, 0⟩
def cskip : Counters := ⟨0, 0, 0, 1, 0⟩
def cerr : Counters := ⟨0, 0, 0, 0, 1⟩

/-- Embeds `has_file_changed` of `update_database.py`: the stored record and
the live descriptor differ in `mtime`, `size`, or `fs_id`; the hash is not
part of the comparison. -/
def has_file_changed (r : DbRecord) (e : DirEntry) : Bool :=
  if r.mtime ≠ e.mtime then true
  else if r.size ≠ e.size then true
  else if r.fs_id ≠ e.fs_id then true
  else false

/-- Record built from a live descriptor for `add_file`/`update_file`
(`as_sql_dict(include_hash=True)`). -/
def mk_record (p : String) (e : DirEntry) : DbRecord :=
  { path := p, hash := e.content_hash, size := e.size, mtime := e.mtime, fs_id := e.fs_id }

/-- Embeds one iteration of the `register_new_files` walk loop for the entry
at path `p` under a root configured with fs id `cfg`.  The returned value is
the store, the history rows written, the counter deltas, and the number of
content hashings performed.  Mirrors the code:
`file.is_file()` (raising on a stat permission failure, skipping non-regular
entries), `FileMetadata(file)` (raising `TypeError` on a symlink),
`db.get_file`, then the `fs_id` guard, the insert branch, the
`has_file_changed` branch and the skip branch; only `PermissionError` from
the hashing inside `add_file`/`update_file` is caught
(`log_permission_error`). -/
def register_entry (w : World) (cfg : Int) (db : Db) (p : String) :
    Except PyErr (Db × List HistEntry × Counters × Nat) :=
  match lookup_live w p with
  | none => .ok (db, [], czero, 0)
  | some e =>
    if e.stat_ok = false then .error .permissionDenied
    else if e.is_regular = false then .ok (db, [], czero, 0)
    else if e.is_symlink = true then .error .unsupportedInput
    else if e.fs_id ≠ cfg then
      .ok (db, [log_change Action.error Reason.unexpected_fs_id p e.content_hash], cerr, 0)
    else
      match get_file db p with
      | none =>
          if e.read_ok then
            match add_file db (mk_record p e) with
            | .error err => .error err
            | .ok db2 =>
                .ok (db2, [log_change Action.new Reason.new_file p e.content_hash], cadd, 1)
          else .ok (db, [], cerr, 0)
      | some r =>
          if has_file_changed r e then
            if e.read_ok then
              match update_file db (mk_record p e) with
              | .error err => .error err
              | .ok db2 =>
                  .ok (db2, [log_change Action.update Reason.changed p e.content_hash], cupd, 1)
            else .ok (db, [], cerr, 0)
          else .ok (db, [log_change Action.skip Reason.unchanged p e.content_hash], cskip, 0)

/-- Register walk over the paths of a single root, threading the store. -/
def register_root (w : World) (cfg : Int) (db : Db) (paths : List String) :
    Except PyErr (Db × List HistEntry × Counters × Nat) :=
  match paths with
  | [] => .ok (db, [], czero, 0)
  | p :: rest =>
    match register_entry w cfg db p with
    | .error err => .error err
    | .ok (db1, h1, c1, n1) =>
      match register_root w cfg db1 rest with
      | .error err => .error err
      | .ok (db2, h2, c2, n2) => .ok (db2, h1 ++ h2, Counters.plus c1 c2, n1 + n2)

/-- Register phase over every configured root. -/
def register_roots (w : World) (db : Db) (roots : List (Int × List String)) :
    Except PyErr (Db × List HistEntry × Counters × Nat) :=
  match roots with
  | [] => .ok (db, [], czero, 0)
  | (cfg, ps) :: rest =>
    match register_root w cfg db ps with
    | .error err => .error err
    | .ok (db1, h1, c1, n1) =>
      match register_roots w db1 rest with
      | .error err => .error err
      | .ok (db2, h2, c2, n2) => .ok (db2, h1 ++ h2, Counters.plus c1 c2, n1 + n2)

/-- Embeds `register_new_files`. -/
def register_new_files (w : World) (db : Db) :
    Except PyErr (Db × List HistEntry × Counters × Nat) :=
  register_roots w db w.roots

/-- Embeds one iteration of the `prune_deleted_files` loop on record `r`:
delete on an fs id outside the allowed set (`delete/invalid_fs_id`),
otherwise delete when the path is no longer an existing regular file
(`delete/nonexistent`), otherwise keep. -/
def prune_entry (w : World) (allowed : List Int) (db : Db) (r : DbRecord) :
    Except PyErr (Db × List HistEntry × Counters) :=
  if allowed.contains r.fs_id = false then
    match remove_file db r.path with
    | .error err => .error err
    | .ok db2 => .ok (db2, [log_change Action.delete Reason.invalid_fs_id r.path r.hash], cdel)
  else
    match is_file_check w r.path with
    | .error err => .error err
    | .ok true => .ok (db, [], czero)
    | .ok false =>
      match remove_file db r.path with
      | .error err => .error err
      | .ok db2 => .ok (db2, [log_change Action.delete Reason.nonexistent r.path r.hash], cdel)

/-- Prune loop over a list of records, threading the store. -/
def prune_list (w : World) (allowed : List Int) (db : Db) (rs : List DbRecord) :
    Except PyErr (Db × List HistEntry × Counters) :=
  match rs with
  | [] => .ok (db, [], czero)
  | r :: rest =>
    match prune_entry w allowed db r with
    | .error err => .error err
    | .ok (db1, h1, c1) =>
      match prune_list w allowed db1 rest with
      | .error err => .error err
      | .ok (db2, h2, c2) => .ok (db2, h1 ++ h2, Counters.plus c1 c2)

/-- Embeds `prune_deleted_files`: iterates `db.get_all_files()` (the rows
present when the phase starts) with the allowed fs ids
`filesystems.values()`. -/
def prune_deleted_files (w : World) (db : Db) :
    Except PyErr (Db × List HistEntry × Counters) :=
  prune_list w (w.roots.map Prod.fst) db db.files

/-- Embeds the body of `main`: one reconciliation pass, `prune_deleted_files`
followed by `register_new_files` on the pruned store, concatenating the
history rows and summing the counters. -/
def run_pass (w : World) (db : Db) :
    Except PyErr (Db × List HistEntry × Counters × Nat) :=
  match prune_deleted_files w db with
  | .error err => .error err
  | .ok (db1, h1, c1) =>
    match register_new_files w db1 with
    | .error err => .error err
    | .ok (db2, h2, c2, n2) => .ok (db2, h1 ++ h2, Counters.plus c1 c2, n2)

/-! Concrete instances used by witnesses and counterexamples. -/

/-- Concrete 32-byte digest. -/
def h32x : List Nat := List.replicate 32 0

/-- Concrete live regular file under a root configured with fs id 1. -/
def e1x : DirEntry :=
  { path := "p", is_regular := true, is_symlink := false, stat_ok := true,
    read_ok := true, size := 2, mtime := 3, fs_id := 1, content_hash := h32x }

/-- World with the single root `(1, ["p"])` and the single live file `e1x`. -/
def w1x : World := { live := [e1x], roots := [(1, ["p"])] }

/-- Stored record for `"p"` whose size differs from the live file `e1x`. -/
def r1x : DbRecord := { path := "p", hash := h32x, size := 1, mtime := 3, fs_id := 1 }

/-- Read-write store holding only `r1x`. -/
def db1x : Db := { readonly := false, files := [r1x] }

/-- Empty read-write store. -/
def dbe : Db := { readonly := false, files := [] }

/-- Live regular file whose fs id 2 disagrees with both configured roots. -/
def e2x : DirEntry :=
  { path := "p", is_regular := true, is_symlink := false, stat_ok := true,
    read_ok := true, size := 0, mtime := 0, fs_id := 2, content_hash := h32x }

/-- World with roots configured `(1, ["p"])` and `(2, [])`: fs id 2 is in the
allowed set, but the file at `"p"` lives on fs 2 while its root expects 1. -/
def w2x : World := { live := [e2x], roots := [(1, ["p"]), (2, [])] }

/-- Store tracking `"p"` with the (allowed) stored fs id 2, matching `e2x`. -/
def db2x : Db :=
  { readonly := false, files := [{ path := "p", hash := h32x, size := 0, mtime := 0, fs_id := 2 }] }

/-- Live regular file whose directory denies `stat` (`stat_ok = false`). -/
def e5x : DirEntry :=
  { path := "q", is_regular := true, is_symlink := false, stat_ok := false,
    read_ok := true, size := 0, mtime := 0, fs_id := 1, content_hash := h32x }

/-- World walking the stat-denied entry `e5x`. -/
def w5x : World := { live := [e5x], roots := [(1, ["q"])] }

/-- Symlink whose target is a regular file (`is_file()` true, `is_symlink()`
true). -/
def e6x : DirEntry :=
  { path := "s", is_regular := true, is_symlink := true, stat_ok := true,
    read_ok := true, size := 0, mtime := 0, fs_id := 1, content_hash := h32x }

/-- World walking the symlink entry `e6x`. -/
def w6x : World := { live := [e6x], roots := [(1, ["s"])] }

/-- Live regular file that can be statted but not read (`read_ok = false`). -/
def e5y : DirEntry :=
  { path := "r", is_regular := true, is_symlink := false, stat_ok := true,
    read_ok := false, size := 0, mtime := 0, fs_id := 1, content_hash := h32x }

/-- World walking the unreadable entry `e5y`. -/
def w5y : World := { live := [e5y], roots := [(1, ["r"])] }

/-- Directory entry that is not a regular file (device, socket, broken
symlink: `is_file()` false). -/
def e6y : DirEntry :=
  { path := "t", is_regular := false, is_symlink := false, stat_ok := true,
    read_ok := true, size := 0, mtime := 0, fs_id := 1, content_hash := h32x }

/-- World walking the non-regular entry `e6y`. -/
def w6y : World := { live := [e6y], roots := [(1, ["t"])] }

/-- Stored record whose fs id 9 is outside the configured set of `w3x`. -/
def r3a : DbRecord := { path := "a", hash := h32x, size := 0, mtime := 0, fs_id := 9 }

/-- Stored record whose path `"b"` no longer exists on disk in `w3x`. -/
def r3b : DbRecord := { path := "b", hash := h32x, size := 0, mtime := 0, fs_id := 1 }

/-- Stored record matching the live file `e3c`. -/
def r3c : DbRecord := { path := "c", hash := h32x, size := 0, mtime := 0, fs_id := 1 }

/-- Live regular file backing the kept record `r3c`. -/
def e3c : DirEntry :=
  { path := "c", is_regular := true, is_symlink := false, stat_ok := true,
    read_ok := true, size := 0, mtime := 0, fs_id := 1, content_hash := h32x }

/-- World with the single root `(1, ["c"])` and the live file `e3c`. -/
def w3x : World := { live := [e3c], roots := [(1, ["c"])] }

/-- Read-write store holding `r3a`, `r3b` and `r3c`. -/
def db3x : Db := { readonly := false, files := [r3a, r3b, r3c] }

/-- Store contents after a pass over `w3x` on `db3x`: only `r3c` survives. -/
def db3F : Db := { readonly := false, files := [r3c] }

/-- History written by a pass over `w3x` on `db3x`. -/
def hist3 : List HistEntry :=
  [log_change Action.delete Reason.invalid_fs_id "a" h32x,
   log_change Action.delete Reason.nonexistent "b" h32x,
   log_change Action.skip Reason.unchanged "c" h32x]

/-- Proposition used by the idempotence development: the store has a record
for `p` that agrees with the live entry there on the stat-derived fields
(`has_file_changed` is false). -/
def matches_live (w : World) (db : Db) (p : String) : Prop :=
  ∃ e r, lookup_live w p = some e ∧ get_file db p = some r ∧ has_file_changed r e = false

/-- Proposition: record `r` survives a prune against `w` — its fs id is in
the allowed set and its path is an existing regular file. -/
def stable_rec (w : World) (allowed : List Int) (r : DbRecord) : Prop :=
  allowed.contains r.fs_id = true ∧ is_file_check w r.path = .ok true

/-- Proposition: a register iteration on the walked path `p` of a root
configured with `cfg` is quiet over `db`: the entry can be statted, a
regular entry is not a symlink, and a readable in-scope regular file already
has a record matching its stat fields. -/
def settled_at (w : World) (cfg : Int) (db : Db) (p : String) : Prop :=
  ∀ e, lookup_live w p = some e →
    e.stat_ok = true ∧
    (e.is_regular = true → e.is_symlink = false) ∧
    (e.is_regular = true → e.fs_id = cfg → e.read_ok = true →
      ∃ r, get_file db p = some r ∧ has_file_changed r e = false)

end FileTracker

namespace FileTracker

/-! Helper lemmas about the store operations. -/

theorem get_file_some {db : Db} {p : String} {r : DbRecord}
    (h : get_file db p = some r) : r ∈ db.files ∧ r.path = p := by
  refine ⟨List.mem_of_find?_eq_some h, ?_⟩
  simpa using List.find?_some h

theorem get_file_none {db : Db} {p : String} :
    get_file db p = none ↔ ∀ r ∈ db.files, r.path ≠ p := by
  simp [get_file, List.find?_eq_none]

theorem hfc_false_iff (r : DbRecord) (e : DirEntry) :
    has_file_changed r e = false ↔
      (r.size = e.size ∧ r.mtime = e.mtime ∧ r.fs_id = e.fs_id) := by
  unfold has_file_changed
  by_cases h1 : r.mtime = e.mtime <;> by_cases h2 : r.size = e.size <;>
    by_cases h3 : r.fs_id = e.fs_id <;> simp [h1, h2, h3]

/-! Branch lemmas for one iteration of the register walk loop. -/

theorem register_entry_nolive {w : World} {cfg : Int} {db : Db} {p : String}
    (hl : lookup_live w p = none) :
    register_entry w cfg db p = .ok (db, [], czero, 0) := by
  simp [register_entry, hl]

theorem register_entry_statfail {w : World} {cfg : Int} {db : Db} {p : String} {e : DirEntry}
    (hl : lookup_live w p = some e) (hs : e.stat_ok = false) :
    register_entry w cfg db p = .error .permissionDenied := by
  simp [register_entry, hl, hs]

theorem register_entry_nonregular {w : World} {cfg : Int} {db : Db} {p : String} {e : DirEntry}
    (hl : lookup_live w p = some e) (hs : e.stat_ok = true) (hr : e.is_regular = false) :
    register_entry w cfg db p = .ok (db, [], czero, 0) := by
  simp [register_entry, hl, hs, hr]

theorem register_entry_symlink {w : World} {cfg : Int} {db : Db} {p : String} {e : DirEntry}
    (hl : lookup_live w p = some e) (hs : e.stat_ok = true) (hr : e.is_regular = true)
    (hy : e.is_symlink = true) :
    register_entry w cfg db p = .error .unsupportedInput := by
  simp [register_entry, hl, hs, hr, hy]

theorem register_entry_badfs {w : World} {cfg : Int} {db : Db} {p : String} {e : DirEntry}
    (hl : lookup_live w p = some e) (hs : e.stat_ok = true) (hr : e.is_regular = true)
    (hy : e.is_symlink = false) (hf : e.fs_id ≠ cfg) :
    register_entry w cfg db p =
      .ok (db, [log_change Action.error Reason.unexpected_fs_id p e.content_hash], cerr, 0) := by
  simp [register_entry, hl, hs, hr, hy, hf]

theorem register_entry_new {w : World} {cfg : Int} {db : Db} {p : String} {e : DirEntry}
    (hl : lookup_live w p = some e) (hs : e.stat_ok = true) (hr : e.is_regular = true)
    (hy : e.is_symlink = false) (hf : e.fs_id = cfg) (hg : get_file db p = none)
    (hk : e.read_ok = true) (hro : db.readonly = false) :
    register_entry w cfg db p =
      .ok ({ db with files := db.files ++ [mk_record p e] },
           [log_change Action.new Reason.new_file p e.content_hash], cadd, 1) := by
  simp [register_entry, hl, hs, hr, hy, hf, hg, hk, add_file, hro, mk_record]

theorem register_entry_new_perm {w : World} {cfg : Int} {db : Db} {p : String} {e : DirEntry}
    (hl : lookup_live w p = some e) (hs : e.stat_ok = true) (hr : e.is_regular = true)
    (hy : e.is_symlink = false) (hf : e.fs_id = cfg) (hg : get_file db p = none)
    (hk : e.read_ok = false) :
    register_entry w cfg db p = .ok (db, [], cerr, 0) := by
  simp [register_entry, hl, hs, hr, hy, hf, hg, hk]

theorem register_entry_update {w : World} {cfg : Int} {db : Db} {p : String} {e : DirEntry}
    {r : DbRecord}
    (hl : lookup_live w p = some e) (hs : e.stat_ok = true) (hr : e.is_regular = true)
    (hy : e.is_symlink = false) (hf : e.fs_id = cfg) (hg : get_file db p = some r)
    (hc : has_file_changed r e = true) (hk : e.read_ok = true) (hro : db.readonly = false) :
    register_entry w cfg db p =
      .ok ({ db with files := db.files.map (fun x => if x.path == p then mk_record p e else x) },
           [log_change Action.update Reason.changed p e.content_hash], cupd, 1) := by
  simp [register_entry, hl, hs, hr, hy, hf, hg, hc, hk, update_file, hro, mk_record]

theorem register_entry_update_perm {w : World} {cfg : Int} {db : Db} {p : String} {e : DirEntry}
    {r : DbRecord}
    (hl : lookup_live w p = some e) (hs : e.stat_ok = true) (hr : e.is_regular = true)
    (hy : e.is_symlink = false) (hf : e.fs_id = cfg) (hg : get_file db p = some r)
    (hc : has_file_changed r e = true) (hk : e.read_ok = false) :
    register_entry w cfg db p = .ok (db, [], cerr, 0) := by
  simp [register_entry, hl, hs, hr, hy, hf, hg, hc, hk]

theorem register_entry_skip {w : World} {cfg : Int} {db : Db} {p : String} {e : DirEntry}
    {r : DbRecord}
    (hl : lookup_live w p = some e) (hs : e.stat_ok = true) (hr : e.is_regular = true)
    (hy : e.is_symlink = false) (hf : e.fs_id = cfg) (hg : get_file db p = some r)
    (hc : has_file_changed r e = false) :
    register_entry w cfg db p =
      .ok (db, [log_change Action.skip Reason.unchanged p e.content_hash], cskip, 0) := by
  simp [register_entry, hl, hs, hr, hy, hf, hg, hc]

end FileTracker

namespace FileTracker

/-- C1: during the register phase, for a walked regular file whose fs id
matches its root's configured value and that already has a record in the
store, the record is updated and `(update, changed)` logged if and only if
record and live descriptor differ in `size`, `mtime` or `fs_id`; otherwise
`(skip, unchanged)` is logged with no store mutation and no hashing (the
final `0` is the number of content hashings performed); and
`has_file_changed` never consults either hash. -/
theorem C1_update_iff_stat_fields_differ
    (w : World) (cfg : Int) (db : Db) (p : String) (e : DirEntry) (r : DbRecord)
    (hl : lookup_live w p = some e) (hs : e.stat_ok = true) (hr : e.is_regular = true)
    (hy : e.is_symlink = false) (hf : e.fs_id = cfg) (hg : get_file db p = some r)
    (hk : e.read_ok = true) (hro : db.readonly = false) :
    (¬(r.size = e.size ∧ r.mtime = e.mtime ∧ r.fs_id = e.fs_id) →
        register_entry w cfg db p =
          .ok ({ db with files := db.files.map (fun x => if x.path == p then mk_record p e else x) },
               [log_change Action.update Reason.changed p e.content_hash], cupd, 1)) ∧
    ((r.size = e.size ∧ r.mtime = e.mtime ∧ r.fs_id = e.fs_id) →
        register_entry w cfg db p =
          .ok (db, [log_change Action.skip Reason.unchanged p e.content_hash], cskip, 0)) ∧
    (∀ h1 h2 : List Nat,
        has_file_changed { r with hash := h1 } { e with content_hash := h2 } =
          has_file_changed r e) := by
  refine ⟨?_, ?_, ?_⟩
  · intro hdiff
    have hc : has_file_changed r e = true := by
      cases hcase : has_file_changed r e with
      | false => exact absurd ((hfc_false_iff r e).mp hcase) hdiff
      | true => rfl
    exact register_entry_update hl hs hr hy hf hg hc hk hro
  · intro hsame
    exact register_entry_skip hl hs hr hy hf hg ((hfc_false_iff r e).mpr hsame)
  · intro h1 h2
    simp [has_file_changed]

/-- Witness for C1 at a concrete world: the stored record for `"p"` differs
from the live file in `size`, so the entry is updated. -/
theorem C1_update_iff_stat_fields_differ_witness :
    (lookup_live w1x "p" = some e1x ∧ e1x.stat_ok = true ∧ e1x.is_regular = true ∧
      e1x.is_symlink = false ∧ e1x.fs_id = 1 ∧ get_file db1x "p" = some r1x ∧
      e1x.read_ok = true ∧ db1x.readonly = false) ∧
    ((¬(r1x.size = e1x.size ∧ r1x.mtime = e1x.mtime ∧ r1x.fs_id = e1x.fs_id) →
        register_entry w1x 1 db1x "p" =
          .ok ({ db1x with
                  files := db1x.files.map (fun x => if x.path == "p" then mk_record "p" e1x else x) },
               [log_change Action.update Reason.changed "p" e1x.content_hash], cupd, 1)) ∧
     ((r1x.size = e1x.size ∧ r1x.mtime = e1x.mtime ∧ r1x.fs_id = e1x.fs_id) →
        register_entry w1x 1 db1x "p" =
          .ok (db1x, [log_change Action.skip Reason.unchanged "p" e1x.content_hash], cskip, 0)) ∧
     (∀ h1 h2 : List Nat,
        has_file_changed { r1x with hash := h1 } { e1x with content_hash := h2 } =
          has_file_changed r1x e1x)) :=
  ⟨⟨by decide, by decide, by decide, by decide, by decide, by decide, by decide, by decide⟩,
    C1_update_iff_stat_fields_differ w1x 1 db1x "p" e1x r1x (by decide) (by decide) (by decide)
      (by decide) (by decide) (by decide) (by decide) (by decide)⟩

/-- C4: a walked live regular file whose fs id differs from its root's
configured value is never inserted or updated — the store is returned
exactly unchanged (so any pre-existing record keeps all its fields) — and
`(error, unexpected_fs_id)` is written to the history log. -/
theorem C4_unexpected_fs_id_frame
    (w : World) (cfg : Int) (db : Db) (p : String) (e : DirEntry)
    (hl : lookup_live w p = some e) (hs : e.stat_ok = true) (hr : e.is_regular = true)
    (hy : e.is_symlink = false) (hf : e.fs_id ≠ cfg) :
    register_entry w cfg db p =
      .ok (db, [log_change Action.error Reason.unexpected_fs_id p e.content_hash], cerr, 0) :=
  register_entry_badfs hl hs hr hy hf

/-- Witness for C4 at a concrete world: the file at `"p"` lives on fs 2 while
its root is configured with fs id 1; its pre-existing record is untouched. -/
theorem C4_unexpected_fs_id_frame_witness :
    (lookup_live w2x "p" = some e2x ∧ e2x.stat_ok = true ∧ e2x.is_regular = true ∧
      e2x.is_symlink = false ∧ e2x.fs_id ≠ 1) ∧
    register_entry w2x 1 db2x "p" =
      .ok (db2x, [log_change Action.error Reason.unexpected_fs_id "p" e2x.content_hash], cerr, 0) :=
  ⟨⟨by decide, by decide, by decide, by decide, by decide⟩,
    C4_unexpected_fs_id_frame w2x 1 db2x "p" e2x (by decide) (by decide) (by decide) (by decide)
      (by decide)⟩

/-- C7: `get_files_matching_hash` (the `lookup_by_hash` of the spec) fails
with a Validation error on any input that is not exactly 32 bytes, and on a
valid 32-byte hash with zero matching records it yields the empty sequence
and never an error. -/
theorem C7_lookup_by_hash_validation (db : Db) (h : List Nat) :
    (h.length ≠ 32 → get_files_matching_hash db h = .error .validation) ∧
    (h.length = 32 → (∀ r ∈ db.files, r.hash ≠ h) →
      get_files_matching_hash db h = .ok []) := by
  constructor
  · intro hne
    simp [get_files_matching_hash, hne]
  · intro he hnm
    simp only [get_files_matching_hash, he]
    simp only [ne_eq, not_true_eq_false, if_false, ite_false, Except.ok.injEq]
    refine List.filter_eq_nil_iff.mpr ?_
    intro r hr
    simpa using hnm r hr

/-- Witness for C7: a 31-byte input fails with Validation, and a 32-byte
hash with no matches in the store `db1x` (whose only record carries a
different hash) yields the empty list. -/
theorem C7_lookup_by_hash_validation_witness :
    ((List.replicate 31 0).length ≠ 32 ∧
      get_files_matching_hash db1x (List.replicate 31 0) = .error .validation) ∧
    ((List.replicate 32 1).length = 32 ∧ (∀ r ∈ db1x.files, r.hash ≠ List.replicate 32 1) ∧
      get_files_matching_hash db1x (List.replicate 32 1) = .ok []) :=
  ⟨⟨by decide, (C7_lookup_by_hash_validation db1x (List.replicate 31 0)).1 (by decide)⟩,
   ⟨by decide, by decide,
    (C7_lookup_by_hash_validation db1x (List.replicate 32 1)).2 (by decide) (by decide)⟩⟩

/-- C8: creating a store at an absent path succeeds; creating again at the
now-existing path fails with AlreadyExists; opening it read-only afterwards
yields a handle on which lookups succeed but every insert, update and delete
call fails with a mode error. -/
theorem C8_store_lifecycle (d : Disk) (p : String) (hnone : d.stores.lookup p = none) :
    ∃ d2 dbNew, open_db d p false true = .ok (d2, dbNew) ∧
      open_db d2 p false true = .error .alreadyExists ∧
      ∃ dbRO, open_db d2 p true false = .ok (d2, dbRO) ∧
        dbRO.readonly = true ∧
        (∀ hsh : List Nat, hsh.length = 32 →
          ∃ out, get_files_matching_hash dbRO hsh = .ok out) ∧
        (∀ q, ∃ res, get_file dbRO q = res) ∧
        (∀ x, add_file dbRO x = .error .modeError) ∧
        (∀ x, update_file dbRO x = .error .modeError) ∧
        (∀ q, remove_file dbRO q = .error .modeError) := by
  refine ⟨{ stores := (p, []) :: d.stores }, { readonly := false, files := [] }, ?_, ?_,
    { readonly := true, files := [] }, ?_, rfl, ?_, ?_, ?_, ?_, ?_⟩
  · simp [open_db, hnone]
  · simp [open_db, List.lookup]
  · simp [open_db, List.lookup]
  · intro hsh hlen
    exact ⟨[], by simp [get_files_matching_hash, hlen]⟩
  · intro q
    exact ⟨_, rfl⟩
  · intro x
    simp [add_file]
  · intro x
    simp [update_file]
  · intro q
    simp [remove_file]

/-- Witness for C8 on the empty disk and path `"db"`. -/
theorem C8_store_lifecycle_witness :
    (Disk.mk []).stores.lookup "db" = none ∧
    (∃ d2 dbNew, open_db (Disk.mk []) "db" false true = .ok (d2, dbNew) ∧
      open_db d2 "db" false true = .error .alreadyExists ∧
      ∃ dbRO, open_db d2 "db" true false = .ok (d2, dbRO) ∧
        dbRO.readonly = true ∧
        (∀ hsh : List Nat, hsh.length = 32 →
          ∃ out, get_files_matching_hash dbRO hsh = .ok out) ∧
        (∀ q, ∃ res, get_file dbRO q = res) ∧
        (∀ x, add_file dbRO x = .error .modeError) ∧
        (∀ x, update_file dbRO x = .error .modeError) ∧
        (∀ q, remove_file dbRO q = .error .modeError)) :=
  ⟨by decide, C8_store_lifecycle (Disk.mk []) "db" (by decide)⟩

/-- C9: a fully populated persisted field set, reconstructed into a recorded
descriptor (`DbFileMetadata`) and re-serialized with the hash included,
yields exactly the original fields; the reconstruction takes no filesystem
argument, so it cannot touch the disk. -/
theorem C9_round_trip (d : SqlDict) (h : List Nat) (hh : d.hash = some h) :
    ∃ r : DbRecord, DbFileMetadata_of_dict d = .ok r ∧ as_sql_dict r true = d := by
  obtain ⟨p, sz, mt, hs, fi⟩ := d
  simp only [SqlDict.hash] at hh
  subst hh
  exact ⟨_, rfl, rfl⟩

/-- Witness for C9 on a concrete fully populated dict. -/
theorem C9_round_trip_witness :
    (SqlDict.mk "a" 1 2 (some h32x) 3).hash = some h32x ∧
    (∃ r : DbRecord, DbFileMetadata_of_dict (SqlDict.mk "a" 1 2 (some h32x) 3) = .ok r ∧
      as_sql_dict r true = SqlDict.mk "a" 1 2 (some h32x) 3) :=
  ⟨rfl, C9_round_trip (SqlDict.mk "a" 1 2 (some h32x) 3) h32x rfl⟩

/-- C10: on a read-write store, updating a record whose path is absent fails
with NotFound, and deleting an absent path fails with NotFound; in the model
a failing call returns only the error and no successor state, so the caller's
store value is unchanged by construction. -/
theorem C10_absent_path_not_found (db : Db) (r : DbRecord) (p : String)
    (hro : db.readonly = false) (h1 : get_file db r.path = none) (h2 : get_file db p = none) :
    update_file db r = .error .notFound ∧ remove_file db p = .error .notFound := by
  constructor
  · simp [update_file, hro, h1]
  · simp [remove_file, hro, h2]

/-- Witness for C10: the store `db1x` tracks only `"p"`, so updating a record
at `"q"` and deleting `"q"` both fail with NotFound. -/
theorem C10_absent_path_not_found_witness :
    (db1x.readonly = false ∧
      get_file db1x (DbRecord.mk "q" h32x 1 1 1).path = none ∧ get_file db1x "q" = none) ∧
    (update_file db1x (DbRecord.mk "q" h32x 1 1 1) = .error .notFound ∧
      remove_file db1x "q" = .error .notFound) :=
  ⟨⟨by decide, by decide, by decide⟩,
    C10_absent_path_not_found db1x (DbRecord.mk "q" h32x 1 1 1) "q" (by decide) (by decide)
      (by decide)⟩

end FileTracker

namespace FileTracker

/-- Counterexample to C5 as stated: a permission error raised while building
the live descriptor (here, `Path.is_file()` raising `PermissionError` on a
stat-denied entry) is NOT caught at file granularity — the whole
reconciliation pass aborts with the error instead of logging, counting and
continuing. -/
theorem C5_cex_descriptor_permission_aborts :
    run_pass w5x dbe = .error PyErr.permissionDenied := by decide

/-- C5 (amended): a permission error raised while reading or hashing the
file content inside the insert or update call is caught at file granularity
— the error counter is incremented and the walk continues with an unchanged
store and an ok result — but a permission error raised while building the
live descriptor (statting the entry) propagates and aborts the pass. -/
theorem C5_permission_granularity
    (w : World) (cfg : Int) (db : Db) (p : String) (e : DirEntry)
    (hl : lookup_live w p = some e) :
    (e.stat_ok = false → register_entry w cfg db p = .error .permissionDenied) ∧
    (e.stat_ok = true → e.is_regular = true → e.is_symlink = false → e.fs_id = cfg →
      e.read_ok = false →
      (get_file db p = none ∨ ∃ r, get_file db p = some r ∧ has_file_changed r e = true) →
      register_entry w cfg db p = .ok (db, [], cerr, 0)) := by
  constructor
  · intro hs
    exact register_entry_statfail hl hs
  · intro hs hr hy hf hk hcase
    rcases hcase with hg | ⟨r, hg, hc⟩
    · exact register_entry_new_perm hl hs hr hy hf hg hk
    · exact register_entry_update_perm hl hs hr hy hf hg hc hk

/-- Witness for the amended C5: the statable but unreadable file at `"r"` is
handled non-fatally — one error counted, store unchanged, ok result. -/
theorem C5_permission_granularity_witness :
    lookup_live w5y "r" = some e5y ∧
    ((e5y.stat_ok = false → register_entry w5y 1 dbe "r" = .error .permissionDenied) ∧
     (e5y.stat_ok = true → e5y.is_regular = true → e5y.is_symlink = false → e5y.fs_id = 1 →
      e5y.read_ok = false →
      (get_file dbe "r" = none ∨ ∃ r, get_file dbe "r" = some r ∧ has_file_changed r e5y = true) →
      register_entry w5y 1 dbe "r" = .ok (dbe, [], cerr, 0))) :=
  ⟨by decide, C5_permission_granularity w5y 1 dbe "r" e5y (by decide)⟩

/-- Counterexample to C6 as stated: a symlink whose target is a regular file
(`is_file()` true, so it passes the walk filter) makes descriptor
construction raise `TypeError`, which is not caught — the reconciliation
pass aborts instead of skipping the entry. -/
theorem C6_cex_symlink_aborts :
    run_pass w6x dbe = .error PyErr.unsupportedInput := by decide

/-- C6 (amended): a walked entry that is not a regular file (`is_file()`
false: device, socket, broken symlink) is silently skipped — never inserted
or updated, the pass continues; but a symlink whose target is a regular file
raises UnsupportedInput from descriptor construction, aborting the pass (it
is still never inserted or updated, since the error propagates before any
store call). -/
theorem C6_non_regular_skipped
    (w : World) (cfg : Int) (db : Db) (p : String) (e : DirEntry)
    (hl : lookup_live w p = some e) (hs : e.stat_ok = true) :
    (e.is_regular = false → register_entry w cfg db p = .ok (db, [], czero, 0)) ∧
    (e.is_regular = true → e.is_symlink = true →
      register_entry w cfg db p = .error .unsupportedInput) := by
  constructor
  · intro hr
    exact register_entry_nonregular hl hs hr
  · intro hr hy
    exact register_entry_symlink hl hs hr hy

/-- Witness for the amended C6: the non-regular entry at `"t"` is skipped
with no store change and no log row. -/
theorem C6_non_regular_skipped_witness :
    (lookup_live w6y "t" = some e6y ∧ e6y.stat_ok = true) ∧
    ((e6y.is_regular = false → register_entry w6y 1 dbe "t" = .ok (dbe, [], czero, 0)) ∧
     (e6y.is_regular = true → e6y.is_symlink = true →
      register_entry w6y 1 dbe "t" = .error .unsupportedInput)) :=
  ⟨⟨by decide, by decide⟩, C6_non_regular_skipped w6y 1 dbe "t" e6y (by decide) (by decide)⟩

end FileTracker

namespace FileTracker

/-! Helper lemmas about the prune phase. -/

theorem remove_file_ok {db : Db} {p : String} {db2 : Db} (h : remove_file db p = .ok db2) :
    db2.files = db.files.filter (fun x => ¬(x.path == p)) := by
  unfold remove_file at h
  split at h
  · cases h
  · split at h
    · cases h
      rfl
    · cases h

theorem prune_entry_ok {w : World} {allowed : List Int} {db : Db} {r : DbRecord}
    {out : Db × List HistEntry × Counters} (h : prune_entry w allowed db r = .ok out) :
    (allowed.contains r.fs_id = false ∧
      ∃ db2, remove_file db r.path = .ok db2 ∧
        out = (db2, [log_change Action.delete Reason.invalid_fs_id r.path r.hash], cdel)) ∨
    (allowed.contains r.fs_id = true ∧ is_file_check w r.path = .ok true ∧
      out = (db, [], czero)) ∨
    (allowed.contains r.fs_id = true ∧ is_file_check w r.path = .ok false ∧
      ∃ db2, remove_file db r.path = .ok db2 ∧
        out = (db2, [log_change Action.delete Reason.nonexistent r.path r.hash], cdel)) := by
  unfold prune_entry at h
  split at h
  · rename_i hcon
    left
    refine ⟨hcon, ?_⟩
    cases hrm : remove_file db r.path with
    | error err => rw [hrm] at h; cases h
    | ok db2 => rw [hrm] at h; cases h; exact ⟨db2, rfl, rfl⟩
  · rename_i hcon
    right
    have hcon2 : allowed.contains r.fs_id = true := by
      cases hval : allowed.contains r.fs_id with
      | false => exact absurd hval hcon
      | true => rfl
    cases hifc : is_file_check w r.path with
    | error err => rw [hifc] at h; cases h
    | ok b =>
      rw [hifc] at h
      cases b with
      | true => cases h; exact Or.inl ⟨hcon2, rfl, rfl⟩
      | false =>
        refine Or.inr ⟨hcon2, rfl, ?_⟩
        cases hrm : remove_file db r.path with
        | error err => rw [hrm] at h; cases h
        | ok db2 => rw [hrm] at h; cases h; exact ⟨db2, rfl, rfl⟩

theorem prune_list_sub {w : World} {allowed : List Int} :
    ∀ (rs : List DbRecord) (db db' : Db) (hh : List HistEntry) (cc : Counters),
      prune_list w allowed db rs = .ok (db', hh, cc) → ∀ y ∈ db'.files, y ∈ db.files := by
  intro rs
  induction rs with
  | nil =>
    intro db db' hh cc h y hy
    unfold prune_list at h
    cases h
    exact hy
  | cons x rest ih =>
    intro db db' hh cc h y hy
    cases hpe : prune_entry w allowed db x with
    | error err => simp [prune_list, hpe] at h
    | ok out =>
      obtain ⟨db1, h1, c1⟩ := out
      cases hpl : prune_list w allowed db1 rest with
      | error err => simp [prune_list, hpe, hpl] at h
      | ok out2 =>
        obtain ⟨db2, h2, c2⟩ := out2
        simp only [prune_list, hpe, hpl, Except.ok.injEq, Prod.mk.injEq] at h
        obtain ⟨hdb, hhh, hcc⟩ := h
        subst hdb
        have hy1 : y ∈ db1.files := ih db1 db2 h2 c2 hpl y hy
        rcases prune_entry_ok hpe with ⟨_, db3, hrm, heq⟩ | ⟨_, _, heq⟩ | ⟨_, _, db3, hrm, heq⟩
        · cases heq
          rw [remove_file_ok hrm] at hy1
          exact List.mem_of_mem_filter hy1
        · cases heq
          exact hy1
        · cases heq
          rw [remove_file_ok hrm] at hy1
          exact List.mem_of_mem_filter hy1

theorem prune_list_keep {w : World} {allowed : List Int} :
    ∀ (rs : List DbRecord) (db db' : Db) (hh : List HistEntry) (cc : Counters),
      prune_list w allowed db rs = .ok (db', hh, cc) →
      ∀ y ∈ db.files, (∀ s ∈ rs, s.path ≠ y.path) → y ∈ db'.files := by
  intro rs
  induction rs with
  | nil =>
    intro db db' hh cc h y hy _
    unfold prune_list at h
    cases h
    exact hy
  | cons x rest ih =>
    intro db db' hh cc h y hy hne
    cases hpe : prune_entry w allowed db x with
    | error err => simp [prune_list, hpe] at h
    | ok out =>
      obtain ⟨db1, h1, c1⟩ := out
      cases hpl : prune_list w allowed db1 rest with
      | error err => simp [prune_list, hpe, hpl] at h
      | ok out2 =>
        obtain ⟨db2, h2, c2⟩ := out2
        simp only [prune_list, hpe, hpl, Except.ok.injEq, Prod.mk.injEq] at h
        obtain ⟨hdb, hhh, hcc⟩ := h
        subst hdb
        have hy1 : y ∈ db1.files := by
          rcases prune_entry_ok hpe with ⟨_, db3, hrm, heq⟩ | ⟨_, _, heq⟩ | ⟨_, _, db3, hrm, heq⟩
          · cases heq
            rw [remove_file_ok hrm]
            refine List.mem_filter.mpr ⟨hy, ?_⟩
            have hxy : ¬y.path = x.path := fun hc => hne x (List.mem_cons_self x rest) hc.symm
            simp [hxy]
          · cases heq
            exact hy
          · cases heq
            rw [remove_file_ok hrm]
            refine List.mem_filter.mpr ⟨hy, ?_⟩
            have hxy : ¬y.path = x.path := fun hc => hne x (List.mem_cons_self x rest) hc.symm
            simp [hxy]
        exact ih db1 db2 h2 c2 hpl y hy1 (fun s hs => hne s (List.mem_cons_of_mem x hs))

end FileTracker

namespace FileTracker

theorem prune_list_spec {w : World} {allowed : List Int} :
    ∀ (rs : List DbRecord) (db db' : Db) (hh : List HistEntry) (cc : Counters),
      prune_list w allowed db rs = .ok (db', hh, cc) →
      (rs.map DbRecord.path).Nodup →
      (∀ s ∈ rs, s ∈ db.files) →
      ∀ r ∈ rs,
        (allowed.contains r.fs_id = false →
          r ∉ db'.files ∧ log_change Action.delete Reason.invalid_fs_id r.path r.hash ∈ hh) ∧
        (allowed.contains r.fs_id = true → is_file_check w r.path = .ok false →
          r ∉ db'.files ∧ log_change Action.delete Reason.nonexistent r.path r.hash ∈ hh) ∧
        (allowed.contains r.fs_id = true → is_file_check w r.path = .ok true →
          r ∈ db'.files) := by
  intro rs
  induction rs with
  | nil =>
    intro db db' hh cc h hnd hmem r hr
    cases hr
  | cons x rest ih =>
    intro db db' hh cc h hnd hmem r hr
    cases hpe : prune_entry w allowed db x with
    | error err => simp [prune_list, hpe] at h
    | ok out =>
      obtain ⟨db1, h1, c1⟩ := out
      cases hpl : prune_list w allowed db1 rest with
      | error err => simp [prune_list, hpe, hpl] at h
      | ok out2 =>
        obtain ⟨db2, h2, c2⟩ := out2
        simp only [prune_list, hpe, hpl, Except.ok.injEq, Prod.mk.injEq] at h
        obtain ⟨hdb, hhh, hcc⟩ := h
        subst hdb
        subst hhh
        have hnd_rest : (rest.map DbRecord.path).Nodup := (List.nodup_cons.mp hnd).2
        have hx_not : x.path ∉ rest.map DbRecord.path := (List.nodup_cons.mp hnd).1
        -- a record processed later never shares the path of `x`
        have hrest_ne : ∀ s ∈ rest, s.path ≠ x.path := by
          intro s hs hcontra
          exact hx_not (hcontra ▸ List.mem_map_of_mem DbRecord.path hs)
        -- the records of `rest` survive the step on `x`
        have hmem1 : ∀ s ∈ rest, s ∈ db1.files := by
          intro s hs
          rcases prune_entry_ok hpe with ⟨_, db3, hrm, heq⟩ | ⟨_, _, heq⟩ | ⟨_, _, db3, hrm, heq⟩
          · obtain ⟨heq1, _, _⟩ := Prod.mk.injEq .. ▸ heq
            have : db3 = db1 := by cases heq; rfl
            subst this
            rw [remove_file_ok hrm]
            refine List.mem_filter.mpr ⟨hmem s (List.mem_cons_of_mem x hs), ?_⟩
            have hxy : ¬s.path = x.path := hrest_ne s hs
            simp [hxy]
          · have : db = db1 := by cases heq; rfl
            subst this
            exact hmem s (List.mem_cons_of_mem x hs)
          · have : db3 = db1 := by cases heq; rfl
            subst this
            rw [remove_file_ok hrm]
            refine List.mem_filter.mpr ⟨hmem s (List.mem_cons_of_mem x hs), ?_⟩
            have hxy : ¬s.path = x.path := hrest_ne s hs
            simp [hxy]
        rcases List.mem_cons.mp hr with hreq | hrtl
    -- the record is the head `x`
        · have hxr : x = r := hreq.symm
          subst hxr
          rcases prune_entry_ok hpe with ⟨hcon, db3, hrm, heq⟩ | ⟨hcon, hifc, heq⟩ |
            ⟨hcon, hifc, db3, hrm, heq⟩
          · have hdb3 : db3 = db1 := by cases heq; rfl
            have hh1 : h1 = [log_change Action.delete Reason.invalid_fs_id x.path x.hash] := by
              cases heq; rfl
            subst hdb3
            refine ⟨fun _ => ⟨?_, ?_⟩, fun hc _ => by rw [hcon] at hc; simp at hc,
              fun hc _ => by rw [hcon] at hc; simp at hc⟩
            · intro hmem2
              have hx1 : x ∈ db3.files := prune_list_sub rest db3 db2 h2 c2 hpl x hmem2
              rw [remove_file_ok hrm] at hx1
              have hx2 := List.of_mem_filter hx1
              simp at hx2
            · rw [hh1]
              exact List.mem_append_left _ (List.mem_singleton.mpr rfl)
          · have hdbeq : db = db1 := by cases heq; rfl
            have hh1 : h1 = [] := by cases heq; rfl
            subst hdbeq
            refine ⟨fun hc => by rw [hcon] at hc; simp at hc, fun _ hc => ?_, fun _ _ => ?_⟩
            · rw [hifc] at hc
              simp at hc
            · exact prune_list_keep rest db db2 h2 c2 hpl x (hmem x (List.mem_cons_self x rest))
                (fun s hs => hrest_ne s hs)
          · have hdb3 : db3 = db1 := by cases heq; rfl
            have hh1 : h1 = [log_change Action.delete Reason.nonexistent x.path x.hash] := by
              cases heq; rfl
            subst hdb3
            refine ⟨fun hc => by rw [hcon] at hc; simp at hc, fun _ _ => ⟨?_, ?_⟩,
              fun _ hc => by rw [hifc] at hc; simp at hc⟩
            · intro hmem2
              have hx1 : x ∈ db3.files := prune_list_sub rest db3 db2 h2 c2 hpl x hmem2
              rw [remove_file_ok hrm] at hx1
              have hx2 := List.of_mem_filter hx1
              simp at hx2
            · rw [hh1]
              exact List.mem_append_left _ (List.mem_singleton.mpr rfl)
    -- the record is in the tail
        · have hres := ih db1 db2 h2 c2 hpl hnd_rest hmem1 r hrtl
          refine ⟨fun hc => ?_, fun hc hifc => ?_, fun hc hifc => (hres.2.2 hc hifc)⟩
          · obtain ⟨hnm, hin⟩ := hres.1 hc
            exact ⟨hnm, List.mem_append_right _ hin⟩
          · obtain ⟨hnm, hin⟩ := hres.2.1 hc hifc
            exact ⟨hnm, List.mem_append_right _ hin⟩

end FileTracker

namespace FileTracker

/-- C3: in a completed pass the prune phase runs entirely before the
register phase — the register phase operates on the pruned store and the
history is the prune rows followed by the register rows — and for every
record in the store at the start of prune: a record whose fs id is outside
the configured set is deleted and logged `delete/invalid_fs_id`; otherwise a
record whose path is no longer an existing regular file is deleted and
logged `delete/nonexistent`; otherwise the record is left untouched in the
pruned store.  The `Nodup` hypothesis is the `path` primary-key invariant of
the `files` table. -/
theorem C3_prune_phase (w : World) (db dbF : Db) (h : List HistEntry) (c : Counters) (n : Nat)
    (hrun : run_pass w db = .ok (dbF, h, c, n))
    (hnd : (db.files.map DbRecord.path).Nodup) :
    ∃ db1 h1 c1 h2 c2 n2,
      prune_deleted_files w db = .ok (db1, h1, c1) ∧
      register_new_files w db1 = .ok (dbF, h2, c2, n2) ∧
      h = h1 ++ h2 ∧
      ∀ r ∈ db.files,
        ((w.roots.map Prod.fst).contains r.fs_id = false →
          r ∉ db1.files ∧ log_change Action.delete Reason.invalid_fs_id r.path r.hash ∈ h1) ∧
        ((w.roots.map Prod.fst).contains r.fs_id = true → is_file_check w r.path = .ok false →
          r ∉ db1.files ∧ log_change Action.delete Reason.nonexistent r.path r.hash ∈ h1) ∧
        ((w.roots.map Prod.fst).contains r.fs_id = true → is_file_check w r.path = .ok true →
          r ∈ db1.files) := by
  cases hpr : prune_deleted_files w db with
  | error err => simp [run_pass, hpr] at hrun
  | ok out =>
    obtain ⟨db1, h1, c1⟩ := out
    cases hreg : register_new_files w db1 with
    | error err => simp [run_pass, hpr, hreg] at hrun
    | ok out2 =>
      obtain ⟨db2, h2, c2, n2⟩ := out2
      simp only [run_pass, hpr, hreg, Except.ok.injEq, Prod.mk.injEq] at hrun
      obtain ⟨hdb, hh, hc, hn⟩ := hrun
      subst hdb
      subst hh
      refine ⟨db1, h1, c1, h2, c2, n2, ?_, ?_, ?_, ?_⟩
      · rfl
      · exact hreg
      · rfl
      · have hpr2 : prune_list w (w.roots.map Prod.fst) db db.files = .ok (db1, h1, c1) := hpr
        exact prune_list_spec db.files db db1 h1 c1 hpr2 hnd (fun s hs => hs)

/-- Witness for C3 on the concrete world `w3x` and store `db3x`: record
`"a"` is deleted for its invalid fs id, record `"b"` because its path is
gone, and record `"c"` is kept. -/
theorem C3_prune_phase_witness :
    (run_pass w3x db3x = .ok (db3F, hist3, Counters.mk 0 0 2 1 0, 0) ∧
      (db3x.files.map DbRecord.path).Nodup) ∧
    (∃ db1 h1 c1 h2 c2 n2,
      prune_deleted_files w3x db3x = .ok (db1, h1, c1) ∧
      register_new_files w3x db1 = .ok (db3F, h2, c2, n2) ∧
      hist3 = h1 ++ h2 ∧
      ∀ r ∈ db3x.files,
        ((w3x.roots.map Prod.fst).contains r.fs_id = false →
          r ∉ db1.files ∧ log_change Action.delete Reason.invalid_fs_id r.path r.hash ∈ h1) ∧
        ((w3x.roots.map Prod.fst).contains r.fs_id = true →
          is_file_check w3x r.path = .ok false →
          r ∉ db1.files ∧ log_change Action.delete Reason.nonexistent r.path r.hash ∈ h1) ∧
        ((w3x.roots.map Prod.fst).contains r.fs_id = true →
          is_file_check w3x r.path = .ok true → r ∈ db1.files)) :=
  ⟨⟨by decide, by decide⟩,
    C3_prune_phase w3x db3x db3F hist3 (Counters.mk 0 0 2 1 0) 0 (by decide) (by decide)⟩

end FileTracker

namespace FileTracker

/-! Frame lemmas for `get_file` under the store mutations of the register
walk. -/

theorem get_file_append_self {db : Db} {p : String} {x : DbRecord}
    (hnone : get_file db p = none) (hx : x.path = p) :
    get_file { db with files := db.files ++ [x] } p = some x := by
  unfold get_file at hnone ⊢
  rw [List.find?_append, hnone, Option.none_or]
  simp [List.find?, hx]

theorem get_file_append_other {db : Db} {p q : String} {x : DbRecord}
    (hx : x.path = p) (hne : q ≠ p) :
    get_file { db with files := db.files ++ [x] } q = get_file db q := by
  unfold get_file
  rw [List.find?_append]
  have hxq : (fun r : DbRecord => r.path == q) x = false := by
    simp [hx]
    exact fun hc => hne hc.symm
  simp [List.find?, hxq, Option.or_none]

theorem get_file_map_self {p : String} {x : DbRecord} (hx : x.path = p) :
    ∀ (fs : List DbRecord) (r : DbRecord),
      fs.find? (fun y => y.path == p) = some r →
      (fs.map (fun y => if y.path == p then x else y)).find? (fun y => y.path == p) = some x := by
  intro fs
  induction fs with
  | nil =>
    intro r hr
    cases hr
  | cons y ys ih =>
    intro r hr
    by_cases hy : y.path = p
    · have hfy : (if (y.path == p) = true then x else y) = x := by simp [hy]
      rw [List.map_cons, hfy, List.find?_cons_of_pos _ (by simp [hx])]
    · have hfy : (if (y.path == p) = true then x else y) = y := by simp [hy]
      rw [List.map_cons, hfy, List.find?_cons_of_neg _ (by simp [hy])]
      rw [List.find?_cons_of_neg _ (by simp [hy])] at hr
      exact ih r hr

theorem get_file_map_other {p q : String} {x : DbRecord} (hx : x.path = p) (hne : q ≠ p) :
    ∀ fs : List DbRecord,
      (fs.map (fun y => if y.path == p then x else y)).find? (fun y => y.path == q) =
        fs.find? (fun y => y.path == q) := by
  intro fs
  induction fs with
  | nil => rfl
  | cons y ys ih =>
    by_cases hy : y.path = p
    · have hfy : (if (y.path == p) = true then x else y) = x := by simp [hy]
      have hxq : ¬((x.path == q) = true) := by
        simp [hx]
        exact fun hc => hne hc.symm
      have hyq : ¬((y.path == q) = true) := by
        simp [hy]
        exact fun hc => hne hc.symm
      rw [List.map_cons, hfy, @List.find?_cons_of_neg _ (fun y : DbRecord => y.path == q) x _ hxq,
        @List.find?_cons_of_neg _ (fun y : DbRecord => y.path == q) y _ hyq]
      exact ih
    · have hfy : (if (y.path == p) = true then x else y) = y := by simp [hy]
      by_cases hyq : y.path = q
      · rw [List.map_cons, hfy,
          @List.find?_cons_of_pos _ (fun y : DbRecord => y.path == q) y _ (by simp [hyq]),
          @List.find?_cons_of_pos _ (fun y : DbRecord => y.path == q) y _ (by simp [hyq])]
      · rw [List.map_cons, hfy,
          @List.find?_cons_of_neg _ (fun y : DbRecord => y.path == q) y _ (by simp [hyq]),
          @List.find?_cons_of_neg _ (fun y : DbRecord => y.path == q) y _ (by simp [hyq])]
        exact ih

end FileTracker

namespace FileTracker

theorem register_entry_new_ro {w : World} {cfg : Int} {db : Db} {p : String} {e : DirEntry}
    (hl : lookup_live w p = some e) (hs : e.stat_ok = true) (hr : e.is_regular = true)
    (hy : e.is_symlink = false) (hf : e.fs_id = cfg) (hg : get_file db p = none)
    (hk : e.read_ok = true) (hro : db.readonly = true) :
    register_entry w cfg db p = .error .modeError := by
  simp [register_entry, hl, hs, hr, hy, hf, hg, hk, add_file, hro]

theorem register_entry_update_ro {w : World} {cfg : Int} {db : Db} {p : String} {e : DirEntry}
    {r : DbRecord}
    (hl : lookup_live w p = some e) (hs : e.stat_ok = true) (hr : e.is_regular = true)
    (hy : e.is_symlink = false) (hf : e.fs_id = cfg) (hg : get_file db p = some r)
    (hc : has_file_changed r e = true) (hk : e.read_ok = true) (hro : db.readonly = true) :
    register_entry w cfg db p = .error .modeError := by
  simp [register_entry, hl, hs, hr, hy, hf, hg, hc, hk, update_file, hro]

/-- Inversion of one successful register iteration into its eight source
branches. -/
theorem register_entry_inv {w : World} {cfg : Int} {db db2 : Db} {q : String}
    {hh : List HistEntry} {cc : Counters} {nn : Nat}
    (h : register_entry w cfg db q = .ok (db2, hh, cc, nn)) :
    ((db2 = db ∧ hh = [] ∧ cc = czero ∧ nn = 0) ∧
      (lookup_live w q = none ∨
        ∃ e, lookup_live w q = some e ∧ e.stat_ok = true ∧ e.is_regular = false)) ∨
    (∃ e, lookup_live w q = some e ∧ e.stat_ok = true ∧ e.is_regular = true ∧
      e.is_symlink = false ∧
      ((e.fs_id ≠ cfg ∧ db2 = db ∧
         hh = [log_change Action.error Reason.unexpected_fs_id q e.content_hash] ∧
         cc = cerr ∧ nn = 0) ∨
       (e.fs_id = cfg ∧
         ((get_file db q = none ∧ e.read_ok = false ∧ db2 = db ∧ hh = [] ∧ cc = cerr ∧ nn = 0) ∨
          (get_file db q = none ∧ e.read_ok = true ∧ db.readonly = false ∧
            db2 = { db with files := db.files ++ [mk_record q e] } ∧
            hh = [log_change Action.new Reason.new_file q e.content_hash] ∧
            cc = cadd ∧ nn = 1) ∨
          (∃ r, get_file db q = some r ∧ has_file_changed r e = true ∧ e.read_ok = false ∧
            db2 = db ∧ hh = [] ∧ cc = cerr ∧ nn = 0) ∨
          (∃ r, get_file db q = some r ∧ has_file_changed r e = true ∧ e.read_ok = true ∧
            db.readonly = false ∧
            db2 = { db with
              files := db.files.map (fun x => if x.path == q then mk_record q e else x) } ∧
            hh = [log_change Action.update Reason.changed q e.content_hash] ∧
            cc = cupd ∧ nn = 1) ∨
          (∃ r, get_file db q = some r ∧ has_file_changed r e = false ∧ db2 = db ∧
            hh = [log_change Action.skip Reason.unchanged q e.content_hash] ∧
            cc = cskip ∧ nn = 0))))) := by
  cases hl : lookup_live w q with
  | none =>
    rw [register_entry_nolive hl] at h
    cases h
    exact Or.inl ⟨⟨rfl, rfl, rfl, rfl⟩, Or.inl rfl⟩
  | some e =>
    cases hs : e.stat_ok with
    | false =>
      rw [register_entry_statfail hl hs] at h
      exact Except.noConfusion h
    | true =>
      cases hr : e.is_regular with
      | false =>
        rw [register_entry_nonregular hl hs hr] at h
        cases h
        exact Or.inl ⟨⟨rfl, rfl, rfl, rfl⟩, Or.inr ⟨e, rfl, hs, hr⟩⟩
      | true =>
        cases hy : e.is_symlink with
        | true =>
          rw [register_entry_symlink hl hs hr hy] at h
          exact Except.noConfusion h
        | false =>
          by_cases hf : e.fs_id = cfg
          · cases hg : get_file db q with
            | none =>
              cases hk : e.read_ok with
              | false =>
                rw [register_entry_new_perm hl hs hr hy hf hg hk] at h
                cases h
                exact Or.inr ⟨e, rfl, hs, hr, hy, Or.inr ⟨hf,
                  Or.inl ⟨rfl, hk, rfl, rfl, rfl, rfl⟩⟩⟩
              | true =>
                cases hro : db.readonly with
                | true =>
                  rw [register_entry_new_ro hl hs hr hy hf hg hk hro] at h
                  exact Except.noConfusion h
                | false =>
                  rw [register_entry_new hl hs hr hy hf hg hk hro] at h
                  cases h
                  exact Or.inr ⟨e, rfl, hs, hr, hy, Or.inr ⟨hf,
                    Or.inr (Or.inl ⟨rfl, hk, rfl, by rw [hro], rfl, rfl, rfl⟩)⟩⟩
            | some r =>
              cases hc : has_file_changed r e with
              | true =>
                cases hk : e.read_ok with
                | false =>
                  rw [register_entry_update_perm hl hs hr hy hf hg hc hk] at h
                  cases h
                  exact Or.inr ⟨e, rfl, hs, hr, hy, Or.inr ⟨hf,
                    Or.inr (Or.inr (Or.inl ⟨r, rfl, hc, hk, rfl, rfl, rfl, rfl⟩))⟩⟩
                | true =>
                  cases hro : db.readonly with
                  | true =>
                    rw [register_entry_update_ro hl hs hr hy hf hg hc hk hro] at h
                    exact Except.noConfusion h
                  | false =>
                    rw [register_entry_update hl hs hr hy hf hg hc hk hro] at h
                    cases h
                    exact Or.inr ⟨e, rfl, hs, hr, hy, Or.inr ⟨hf,
                      Or.inr (Or.inr (Or.inr (Or.inl
                        ⟨r, rfl, hc, hk, rfl, by rw [hro], rfl, rfl, rfl⟩)))⟩⟩
              | false =>
                rw [register_entry_skip hl hs hr hy hf hg hc] at h
                cases h
                exact Or.inr ⟨e, rfl, hs, hr, hy, Or.inr ⟨hf,
                  Or.inr (Or.inr (Or.inr (Or.inr ⟨r, rfl, hc, rfl, rfl, rfl, rfl⟩)))⟩⟩
          · rw [register_entry_badfs hl hs hr hy hf] at h
            cases h
            exact Or.inr ⟨e, rfl, hs, hr, hy, Or.inl ⟨hf, rfl, rfl, rfl, rfl⟩⟩

end FileTracker

namespace FileTracker

theorem hfc_mk (q : String) (e : DirEntry) : has_file_changed (mk_record q e) e = false := by
  simp [has_file_changed, mk_record]

theorem register_entry_preserves_match {w : World} {cfg : Int} {db db2 : Db} {q : String}
    {hh : List HistEntry} {cc : Counters} {nn : Nat} {p : String}
    (h : register_entry w cfg db q = .ok (db2, hh, cc, nn))
    (hm : matches_live w db p) : matches_live w db2 p := by
  obtain ⟨e0, r0, hl0, hg0, hc0⟩ := hm
  rcases register_entry_inv h with ⟨⟨hdb, _⟩, _⟩ | ⟨e, hl, hs, hr, hy, hrest⟩
  · subst hdb
    exact ⟨e0, r0, hl0, hg0, hc0⟩
  · rcases hrest with ⟨_, hdb, _⟩ | ⟨hf, hsub⟩
    · subst hdb
      exact ⟨e0, r0, hl0, hg0, hc0⟩
    · rcases hsub with ⟨hg, hkf, hdb, _⟩ | ⟨hg, hk, hro, hdb, _⟩ |
        ⟨r, hg, hc, hkf, hdb, _⟩ | ⟨r, hg, hc, hk, hro, hdb, _⟩ | ⟨r, hg, hc, hdb, _⟩
      · subst hdb
        exact ⟨e0, r0, hl0, hg0, hc0⟩
      · subst hdb
        by_cases hpq : p = q
        · rw [hpq] at hg0
          rw [hg0] at hg
          cases hg
        · exact ⟨e0, r0, hl0, by rw [get_file_append_other rfl hpq]; exact hg0, hc0⟩
      · subst hdb
        exact ⟨e0, r0, hl0, hg0, hc0⟩
      · subst hdb
        by_cases hpq : p = q
        · subst hpq
          rw [hg0] at hg
          injection hg with hgr
          subst hgr
          rw [hl0] at hl
          injection hl with hle
          subst hle
          rw [hc0] at hc
          cases hc
        · refine ⟨e0, r0, hl0, ?_, hc0⟩
          show (db.files.map (fun x => if x.path == q then mk_record q e else x)).find?
            (fun y => y.path == p) = some r0
          rw [@get_file_map_other q p (mk_record q e) rfl hpq db.files]
          exact hg0
      · subst hdb
        exact ⟨e0, r0, hl0, hg0, hc0⟩

theorem register_entry_establishes {w : World} {cfg : Int} {db db2 : Db} {q : String}
    {hh : List HistEntry} {cc : Counters} {nn : Nat} {e : DirEntry}
    (hl : lookup_live w q = some e) (hr : e.is_regular = true) (hf : e.fs_id = cfg)
    (hk : e.read_ok = true)
    (h : register_entry w cfg db q = .ok (db2, hh, cc, nn)) :
    matches_live w db2 q := by
  rcases register_entry_inv h with ⟨⟨hdb, _⟩, hcase⟩ | ⟨e2, hl2, hs2, hr2, hy2, hrest⟩
  · rcases hcase with hnone | ⟨e2, hl2, _, hreg2⟩
    · rw [hl] at hnone
      cases hnone
    · rw [hl] at hl2
      injection hl2 with he2
      subst he2
      rw [hr] at hreg2
      cases hreg2
  · rw [hl] at hl2
    injection hl2 with he2
    subst he2
    rcases hrest with ⟨hfne, _⟩ | ⟨_, hsub⟩
    · exact absurd hf hfne
    · rcases hsub with ⟨hg, hkf, _⟩ | ⟨hg, _, _, hdb2, _⟩ |
        ⟨r, hg, hc, hkf, _⟩ | ⟨r, hg, hc, _, _, hdb2, _⟩ | ⟨r, hg, hc, hdb2, _⟩
      · rw [hk] at hkf
        cases hkf
      · subst hdb2
        exact ⟨e, mk_record q e, hl, get_file_append_self hg rfl, hfc_mk q e⟩
      · rw [hk] at hkf
        cases hkf
      · subst hdb2
        refine ⟨e, mk_record q e, hl, ?_, hfc_mk q e⟩
        show (db.files.map (fun x => if x.path == q then mk_record q e else x)).find?
          (fun y => y.path == q) = some (mk_record q e)
        exact @get_file_map_self q (mk_record q e) rfl db.files r hg
      · subst hdb2
        exact ⟨e, r, hl, hg, hc⟩

theorem register_entry_walk_ok {w : World} {cfg : Int} {db db2 : Db} {q : String}
    {hh : List HistEntry} {cc : Counters} {nn : Nat} {e : DirEntry}
    (h : register_entry w cfg db q = .ok (db2, hh, cc, nn))
    (hl : lookup_live w q = some e) :
    e.stat_ok = true ∧ (e.is_regular = true → e.is_symlink = false) := by
  rcases register_entry_inv h with ⟨_, hcase⟩ | ⟨e2, hl2, hs2, hr2, hy2, _⟩
  · rcases hcase with hnone | ⟨e2, hl2, hs2, hr2⟩
    · rw [hl] at hnone
      cases hnone
    · rw [hl] at hl2
      injection hl2 with he2
      subst he2
      exact ⟨hs2, fun hreg => by simp [hreg] at hr2⟩
  · rw [hl] at hl2
    injection hl2 with he2
    subst he2
    exact ⟨hs2, fun _ => hy2⟩

theorem register_entry_preserves_stable {w : World} {cfg : Int} {db db2 : Db} {q : String}
    {hh : List HistEntry} {cc : Counters} {nn : Nat} {allowed : List Int}
    (h : register_entry w cfg db q = .ok (db2, hh, cc, nn))
    (hcfg : allowed.contains cfg = true)
    (hst : ∀ r ∈ db.files, stable_rec w allowed r) :
    ∀ r ∈ db2.files, stable_rec w allowed r := by
  have hnewstable : ∀ e : DirEntry, lookup_live w q = some e → e.stat_ok = true →
      e.is_regular = true → e.fs_id = cfg → stable_rec w allowed (mk_record q e) := by
    intro e hl hs hr hf
    constructor
    · show allowed.contains (mk_record q e).fs_id = true
      simp only [mk_record, hf]
      exact hcfg
    · show is_file_check w (mk_record q e).path = .ok true
      simp [mk_record, is_file_check, hl, hs, hr]
  rcases register_entry_inv h with ⟨⟨hdb, _⟩, _⟩ | ⟨e, hl, hs, hr, hy, hrest⟩
  · subst hdb
    exact hst
  · rcases hrest with ⟨_, hdb, _⟩ | ⟨hf, hsub⟩
    · subst hdb
      exact hst
    · rcases hsub with ⟨_, _, hdb, _⟩ | ⟨hg, hk, hro, hdb, _⟩ |
        ⟨r, _, _, _, hdb, _⟩ | ⟨r, hg, hc, hk, hro, hdb, _⟩ | ⟨r, _, _, hdb, _⟩
      · subst hdb
        exact hst
      · subst hdb
        intro y hy
        rcases List.mem_append.mp hy with hold | hnew
        · exact hst y hold
        · rw [List.mem_singleton.mp hnew]
          exact hnewstable e hl hs hr hf
      · subst hdb
        exact hst
      · subst hdb
        intro y hy
        rcases List.mem_map.mp hy with ⟨x, hx, hxy⟩
        by_cases hxq : x.path = q
        · have hxv : (if (x.path == q) = true then mk_record q e else x) = mk_record q e := by
            simp [hxq]
          rw [← hxy, hxv]
          exact hnewstable e hl hs hr hf
        · have hxv : (if (x.path == q) = true then mk_record q e else x) = x := by
            simp [hxq]
          rw [← hxy, hxv]
          exact hst x hx
      · subst hdb
        exact hst

theorem register_entry_hist {w : World} {cfg : Int} {db db2 : Db} {q : String}
    {hh : List HistEntry} {cc : Counters} {nn : Nat}
    (h : register_entry w cfg db q = .ok (db2, hh, cc, nn)) :
    ∀ x ∈ hh, (x.action = Action.skip ∨ x.action = Action.new ∨ x.action = Action.update) →
      x.path = q ∧ ∃ e, lookup_live w q = some e ∧ e.is_regular = true ∧ e.fs_id = cfg ∧
        matches_live w db2 q := by
  intro x hx hact
  rcases register_entry_inv h with ⟨⟨_, hhh, _⟩, _⟩ | ⟨e, hl, hs, hr, hy, hrest⟩
  · rw [hhh] at hx
    cases hx
  · rcases hrest with ⟨_, _, hhh, _⟩ | ⟨hf, hsub⟩
    · rw [hhh] at hx
      have hxeq := List.mem_singleton.mp hx
      rcases hact with ha | ha | ha <;> rw [hxeq] at ha <;> simp [log_change] at ha
    · rcases hsub with ⟨_, _, _, hhh, _⟩ | ⟨hg, hk, hro, hdb, hhh, _⟩ |
        ⟨r, _, _, _, _, hhh, _⟩ | ⟨r, hg, hc, hk, hro, hdb, hhh, _⟩ | ⟨r, hg, hc, hdb, hhh, _⟩
      · rw [hhh] at hx
        cases hx
      · rw [hhh] at hx
        have hxeq := List.mem_singleton.mp hx
        subst hdb
        refine ⟨by rw [hxeq]; simp [log_change], e, hl, hr, hf, ?_⟩
        exact ⟨e, mk_record q e, hl, get_file_append_self hg rfl, hfc_mk q e⟩
      · rw [hhh] at hx
        cases hx
      · rw [hhh] at hx
        have hxeq := List.mem_singleton.mp hx
        subst hdb
        refine ⟨by rw [hxeq]; simp [log_change], e, hl, hr, hf, ?_⟩
        refine ⟨e, mk_record q e, hl, ?_, hfc_mk q e⟩
        show (db.files.map (fun y => if y.path == q then mk_record q e else y)).find?
          (fun y => y.path == q) = some (mk_record q e)
        exact @get_file_map_self q (mk_record q e) rfl db.files r hg
      · rw [hhh] at hx
        have hxeq := List.mem_singleton.mp hx
        subst hdb
        exact ⟨by rw [hxeq]; simp [log_change], e, hl, hr, hf, e, r, hl, hg, hc⟩

end FileTracker

namespace FileTracker

theorem register_root_ok_cons {w : World} {cfg : Int} {db : Db} {p : String} {ps : List String}
    {out : Db × List HistEntry × Counters × Nat}
    (h : register_root w cfg db (p :: ps) = .ok out) :
    ∃ db1 h1 c1 n1 db2 h2 c2 n2,
      register_entry w cfg db p = .ok (db1, h1, c1, n1) ∧
      register_root w cfg db1 ps = .ok (db2, h2, c2, n2) ∧
      out = (db2, h1 ++ h2, Counters.plus c1 c2, n1 + n2) := by
  cases he : register_entry w cfg db p with
  | error err => simp [register_root, he] at h
  | ok o1 =>
    obtain ⟨db1, h1, c1, n1⟩ := o1
    cases hrr : register_root w cfg db1 ps with
    | error err => simp [register_root, he, hrr] at h
    | ok o2 =>
      obtain ⟨db2, h2, c2, n2⟩ := o2
      simp only [register_root, he, hrr] at h
      cases h
      exact ⟨db1, h1, c1, n1, db2, h2, c2, n2, rfl, hrr, rfl⟩

theorem register_roots_ok_cons {w : World} {db : Db} {cfg : Int} {ps : List String}
    {rest : List (Int × List String)} {out : Db × List HistEntry × Counters × Nat}
    (h : register_roots w db ((cfg, ps) :: rest) = .ok out) :
    ∃ db1 h1 c1 n1 db2 h2 c2 n2,
      register_root w cfg db ps = .ok (db1, h1, c1, n1) ∧
      register_roots w db1 rest = .ok (db2, h2, c2, n2) ∧
      out = (db2, h1 ++ h2, Counters.plus c1 c2, n1 + n2) := by
  cases he : register_root w cfg db ps with
  | error err => simp [register_roots, he] at h
  | ok o1 =>
    obtain ⟨db1, h1, c1, n1⟩ := o1
    cases hrr : register_roots w db1 rest with
    | error err => simp [register_roots, he, hrr] at h
    | ok o2 =>
      obtain ⟨db2, h2, c2, n2⟩ := o2
      simp only [register_roots, he, hrr] at h
      cases h
      exact ⟨db1, h1, c1, n1, db2, h2, c2, n2, rfl, hrr, rfl⟩

theorem register_root_preserves_match {w : World} {cfg : Int} {p : String} :
    ∀ (ps : List String) (db db2 : Db) (hh : List HistEntry) (cc : Counters) (nn : Nat),
      register_root w cfg db ps = .ok (db2, hh, cc, nn) →
      matches_live w db p → matches_live w db2 p := by
  intro ps
  induction ps with
  | nil =>
    intro db db2 hh cc nn h hm
    unfold register_root at h
    cases h
    exact hm
  | cons q rest ih =>
    intro db db2 hh cc nn h hm
    obtain ⟨db1, h1, c1, n1, dbf, h2, c2, n2, he, hrr, hout⟩ := register_root_ok_cons h
    cases hout
    exact ih db1 db2 h2 c2 n2 hrr (register_entry_preserves_match he hm)

theorem register_roots_preserves_match {w : World} {p : String} :
    ∀ (roots : List (Int × List String)) (db db2 : Db) (hh : List HistEntry) (cc : Counters)
      (nn : Nat),
      register_roots w db roots = .ok (db2, hh, cc, nn) →
      matches_live w db p → matches_live w db2 p := by
  intro roots
  induction roots with
  | nil =>
    intro db db2 hh cc nn h hm
    unfold register_roots at h
    cases h
    exact hm
  | cons root rest ih =>
    obtain ⟨cfg, ps⟩ := root
    intro db db2 hh cc nn h hm
    obtain ⟨db1, h1, c1, n1, dbf, h2, c2, n2, he, hrr, hout⟩ := register_roots_ok_cons h
    cases hout
    exact ih db1 db2 h2 c2 n2 hrr (register_root_preserves_match ps db db1 h1 c1 n1 he hm)

theorem register_root_settles {w : World} {cfg : Int} :
    ∀ (ps : List String) (db db2 : Db) (hh : List HistEntry) (cc : Counters) (nn : Nat),
      register_root w cfg db ps = .ok (db2, hh, cc, nn) →
      ∀ p ∈ ps, ∀ e, lookup_live w p = some e → e.is_regular = true → e.fs_id = cfg →
        e.read_ok = true → matches_live w db2 p := by
  intro ps
  induction ps with
  | nil =>
    intro db db2 hh cc nn h p hp
    cases hp
  | cons q rest ih =>
    intro db db2 hh cc nn h p hp e hl hr hf hk
    obtain ⟨db1, h1, c1, n1, dbf, h2, c2, n2, he, hrr, hout⟩ := register_root_ok_cons h
    cases hout
    rcases List.mem_cons.mp hp with hpq | hptl
    · subst hpq
      exact register_root_preserves_match rest db1 db2 h2 c2 n2 hrr
        (register_entry_establishes hl hr hf hk he)
    · exact ih db1 db2 h2 c2 n2 hrr p hptl e hl hr hf hk

theorem register_roots_settles {w : World} :
    ∀ (roots : List (Int × List String)) (db db2 : Db) (hh : List HistEntry) (cc : Counters)
      (nn : Nat),
      register_roots w db roots = .ok (db2, hh, cc, nn) →
      ∀ cfg ps, (cfg, ps) ∈ roots → ∀ p ∈ ps, ∀ e, lookup_live w p = some e →
        e.is_regular = true → e.fs_id = cfg → e.read_ok = true → matches_live w db2 p := by
  intro roots
  induction roots with
  | nil =>
    intro db db2 hh cc nn h cfg ps hmem
    cases hmem
  | cons root rest ih =>
    obtain ⟨cfg0, ps0⟩ := root
    intro db db2 hh cc nn h cfg ps hmem p hp e hl hr hf hk
    obtain ⟨db1, h1, c1, n1, dbf, h2, c2, n2, he, hrr, hout⟩ := register_roots_ok_cons h
    cases hout
    rcases List.mem_cons.mp hmem with hhead | htl
    · have hc1 : cfg0 = cfg := congrArg Prod.fst hhead.symm
      have hc2 : ps0 = ps := congrArg Prod.snd hhead.symm
      subst hc1
      subst hc2
      exact register_roots_preserves_match rest db1 db2 h2 c2 n2 hrr
        (register_root_settles ps0 db db1 h1 c1 n1 he p hp e hl hr hf hk)
    · exact ih db1 db2 h2 c2 n2 hrr cfg ps htl p hp e hl hr hf hk

theorem register_root_walk_conditions {w : World} {cfg : Int} :
    ∀ (ps : List String) (db db2 : Db) (hh : List HistEntry) (cc : Counters) (nn : Nat),
      register_root w cfg db ps = .ok (db2, hh, cc, nn) →
      ∀ p ∈ ps, ∀ e, lookup_live w p = some e →
        e.stat_ok = true ∧ (e.is_regular = true → e.is_symlink = false) := by
  intro ps
  induction ps with
  | nil =>
    intro db db2 hh cc nn h p hp
    cases hp
  | cons q rest ih =>
    intro db db2 hh cc nn h p hp e hl
    obtain ⟨db1, h1, c1, n1, dbf, h2, c2, n2, he, hrr, hout⟩ := register_root_ok_cons h
    rcases List.mem_cons.mp hp with hpq | hptl
    · subst hpq
      exact register_entry_walk_ok he hl
    · exact ih db1 dbf h2 c2 n2 hrr p hptl e hl

theorem register_roots_walk_conditions {w : World} :
    ∀ (roots : List (Int × List String)) (db db2 : Db) (hh : List HistEntry) (cc : Counters)
      (nn : Nat),
      register_roots w db roots = .ok (db2, hh, cc, nn) →
      ∀ cfg ps, (cfg, ps) ∈ roots → ∀ p ∈ ps, ∀ e, lookup_live w p = some e →
        e.stat_ok = true ∧ (e.is_regular = true → e.is_symlink = false) := by
  intro roots
  induction roots with
  | nil =>
    intro db db2 hh cc nn h cfg ps hmem
    cases hmem
  | cons root rest ih =>
    obtain ⟨cfg0, ps0⟩ := root
    intro db db2 hh cc nn h cfg ps hmem p hp e hl
    obtain ⟨db1, h1, c1, n1, dbf, h2, c2, n2, he, hrr, hout⟩ := register_roots_ok_cons h
    rcases List.mem_cons.mp hmem with hhead | htl
    · have hps : ps0 = ps := congrArg Prod.snd hhead.symm
      subst hps
      exact register_root_walk_conditions ps0 db db1 h1 c1 n1 he p hp e hl
    · exact ih db1 dbf h2 c2 n2 hrr cfg ps htl p hp e hl

theorem register_root_preserves_stable {w : World} {cfg : Int} {allowed : List Int}
    (hcfg : allowed.contains cfg = true) :
    ∀ (ps : List String) (db db2 : Db) (hh : List HistEntry) (cc : Counters) (nn : Nat),
      register_root w cfg db ps = .ok (db2, hh, cc, nn) →
      (∀ r ∈ db.files, stable_rec w allowed r) →
      ∀ r ∈ db2.files, stable_rec w allowed r := by
  intro ps
  induction ps with
  | nil =>
    intro db db2 hh cc nn h hst
    unfold register_root at h
    cases h
    exact hst
  | cons q rest ih =>
    intro db db2 hh cc nn h hst
    obtain ⟨db1, h1, c1, n1, dbf, h2, c2, n2, he, hrr, hout⟩ := register_root_ok_cons h
    cases hout
    exact ih db1 db2 h2 c2 n2 hrr (register_entry_preserves_stable he hcfg hst)

theorem register_roots_preserves_stable {w : World} {allowed : List Int} :
    ∀ (roots : List (Int × List String)) (db db2 : Db) (hh : List HistEntry) (cc : Counters)
      (nn : Nat),
      (∀ cfg ps, (cfg, ps) ∈ roots → allowed.contains cfg = true) →
      register_roots w db roots = .ok (db2, hh, cc, nn) →
      (∀ r ∈ db.files, stable_rec w allowed r) →
      ∀ r ∈ db2.files, stable_rec w allowed r := by
  intro roots
  induction roots with
  | nil =>
    intro db db2 hh cc nn _ h hst
    unfold register_roots at h
    cases h
    exact hst
  | cons root rest ih =>
    obtain ⟨cfg0, ps0⟩ := root
    intro db db2 hh cc nn hall h hst
    obtain ⟨db1, h1, c1, n1, dbf, h2, c2, n2, he, hrr, hout⟩ := register_roots_ok_cons h
    cases hout
    have hc0 : allowed.contains cfg0 = true := hall cfg0 ps0 (List.mem_cons_self _ _)
    exact ih db1 db2 h2 c2 n2 (fun cfg ps hm => hall cfg ps (List.mem_cons_of_mem _ hm)) hrr
      (register_root_preserves_stable hc0 ps0 db db1 h1 c1 n1 he hst)

theorem register_root_hist {w : World} {cfg : Int} :
    ∀ (ps : List String) (db db2 : Db) (hh : List HistEntry) (cc : Counters) (nn : Nat),
      register_root w cfg db ps = .ok (db2, hh, cc, nn) →
      ∀ x ∈ hh, (x.action = Action.skip ∨ x.action = Action.new ∨ x.action = Action.update) →
        x.path ∈ ps ∧ ∃ e, lookup_live w x.path = some e ∧ e.is_regular = true ∧
          e.fs_id = cfg ∧ matches_live w db2 x.path := by
  intro ps
  induction ps with
  | nil =>
    intro db db2 hh cc nn h x hx
    unfold register_root at h
    cases h
    cases hx
  | cons q rest ih =>
    intro db db2 hh cc nn h x hx hact
    obtain ⟨db1, h1, c1, n1, dbf, h2, c2, n2, he, hrr, hout⟩ := register_root_ok_cons h
    cases hout
    rcases List.mem_append.mp hx with hx1 | hx2
    · obtain ⟨hpath, e, hl, hr, hf, hm⟩ := register_entry_hist he x hx1 hact
      refine ⟨by rw [hpath]; exact List.mem_cons_self _ _, e, by rw [hpath]; exact hl,
        hr, hf, ?_⟩
      have hm2 : matches_live w db2 q :=
        register_root_preserves_match rest db1 db2 h2 c2 n2 hrr hm
      rw [hpath]
      exact hm2
    · obtain ⟨hin, hrest⟩ := ih db1 db2 h2 c2 n2 hrr x hx2 hact
      exact ⟨List.mem_cons_of_mem _ hin, hrest⟩

theorem register_roots_hist {w : World} :
    ∀ (roots : List (Int × List String)) (db db2 : Db) (hh : List HistEntry) (cc : Counters)
      (nn : Nat),
      register_roots w db roots = .ok (db2, hh, cc, nn) →
      ∀ x ∈ hh, (x.action = Action.skip ∨ x.action = Action.new ∨ x.action = Action.update) →
        ∃ cfg ps, (cfg, ps) ∈ roots ∧ x.path ∈ ps ∧ ∃ e, lookup_live w x.path = some e ∧
          e.is_regular = true ∧ e.fs_id = cfg ∧ matches_live w db2 x.path := by
  intro roots
  induction roots with
  | nil =>
    intro db db2 hh cc nn h x hx
    unfold register_roots at h
    cases h
    cases hx
  | cons root rest ih =>
    obtain ⟨cfg0, ps0⟩ := root
    intro db db2 hh cc nn h x hx hact
    obtain ⟨db1, h1, c1, n1, dbf, h2, c2, n2, he, hrr, hout⟩ := register_roots_ok_cons h
    cases hout
    rcases List.mem_append.mp hx with hx1 | hx2
    · obtain ⟨hin, e, hl, hr, hf, hm⟩ := register_root_hist ps0 db db1 h1 c1 n1 he x hx1 hact
      exact ⟨cfg0, ps0, List.mem_cons_self _ _, hin, e, hl, hr, hf,
        register_roots_preserves_match rest db1 db2 h2 c2 n2 hrr hm⟩
    · obtain ⟨cfg, ps, hmem, hin, hrest⟩ := ih db1 db2 h2 c2 n2 hrr x hx2 hact
      exact ⟨cfg, ps, List.mem_cons_of_mem _ hmem, hin, hrest⟩

end FileTracker

namespace FileTracker

theorem Counters.czero_plus (c : Counters) : Counters.plus czero c = c := by
  obtain ⟨a, b, d, e, f⟩ := c
  simp [Counters.plus, czero]

theorem prune_list_stable_post {w : World} {allowed : List Int} :
    ∀ (rs : List DbRecord) (db db' : Db) (hh : List HistEntry) (cc : Counters),
      prune_list w allowed db rs = .ok (db', hh, cc) →
      ∀ r ∈ db'.files, r ∈ rs → stable_rec w allowed r := by
  intro rs
  induction rs with
  | nil =>
    intro db db' hh cc h r _ hr
    cases hr
  | cons x rest ih =>
    intro db db' hh cc h r hrdb hr
    cases hpe : prune_entry w allowed db x with
    | error err => simp [prune_list, hpe] at h
    | ok out =>
      obtain ⟨db1, h1, c1⟩ := out
      cases hpl : prune_list w allowed db1 rest with
      | error err => simp [prune_list, hpe, hpl] at h
      | ok out2 =>
        obtain ⟨db2, h2, c2⟩ := out2
        simp only [prune_list, hpe, hpl, Except.ok.injEq, Prod.mk.injEq] at h
        obtain ⟨hdb, hhh, hcc⟩ := h
        subst hdb
        rcases List.mem_cons.mp hr with hrx | hrtl
        · have hxr : x = r := hrx.symm
          subst hxr
          rcases prune_entry_ok hpe with ⟨hcon, db3, hrm, heq⟩ | ⟨hcon, hifc, heq⟩ |
            ⟨hcon, hifc, db3, hrm, heq⟩
          · have hdb3 : db3 = db1 := by cases heq; rfl
            subst hdb3
            have hx1 : x ∈ db3.files := prune_list_sub rest db3 db2 h2 c2 hpl x hrdb
            rw [remove_file_ok hrm] at hx1
            have hx2 := List.of_mem_filter hx1
            simp at hx2
          · exact ⟨hcon, hifc⟩
          · have hdb3 : db3 = db1 := by cases heq; rfl
            subst hdb3
            have hx1 : x ∈ db3.files := prune_list_sub rest db3 db2 h2 c2 hpl x hrdb
            rw [remove_file_ok hrm] at hx1
            have hx2 := List.of_mem_filter hx1
            simp at hx2
        · exact ih db1 db2 h2 c2 hpl r hrdb hrtl

theorem prune_list_quiet {w : World} {allowed : List Int} :
    ∀ (rs : List DbRecord) (db : Db),
      (∀ r ∈ rs, stable_rec w allowed r) →
      prune_list w allowed db rs = .ok (db, [], czero) := by
  intro rs
  induction rs with
  | nil =>
    intro db _
    rfl
  | cons x rest ih =>
    intro db hst
    obtain ⟨hcon, hifc⟩ := hst x (List.mem_cons_self x rest)
    have hpe : prune_entry w allowed db x = .ok (db, [], czero) := by
      unfold prune_entry
      rw [if_neg (by simpa using hcon), hifc]
    have hpl : prune_list w allowed db rest = .ok (db, [], czero) :=
      ih db (fun r hr => hst r (List.mem_cons_of_mem x hr))
    simp [prune_list, hpe, hpl, Counters.czero_plus]

theorem prune_list_hist {w : World} {allowed : List Int} :
    ∀ (rs : List DbRecord) (db db' : Db) (hh : List HistEntry) (cc : Counters),
      prune_list w allowed db rs = .ok (db', hh, cc) →
      ∀ x ∈ hh, x.action = Action.delete := by
  intro rs
  induction rs with
  | nil =>
    intro db db' hh cc h x hx
    unfold prune_list at h
    cases h
    cases hx
  | cons r rest ih =>
    intro db db' hh cc h x hx
    cases hpe : prune_entry w allowed db r with
    | error err => simp [prune_list, hpe] at h
    | ok out =>
      obtain ⟨db1, h1, c1⟩ := out
      cases hpl : prune_list w allowed db1 rest with
      | error err => simp [prune_list, hpe, hpl] at h
      | ok out2 =>
        obtain ⟨db2, h2, c2⟩ := out2
        simp only [prune_list, hpe, hpl, Except.ok.injEq, Prod.mk.injEq] at h
        obtain ⟨hdb, hhh, hcc⟩ := h
        subst hhh
        rcases List.mem_append.mp hx with hx1 | hx2
        · rcases prune_entry_ok hpe with ⟨_, db3, _, heq⟩ | ⟨_, _, heq⟩ | ⟨_, _, db3, _, heq⟩
          · have hh1 : h1 = [log_change Action.delete Reason.invalid_fs_id r.path r.hash] := by
              cases heq; rfl
            rw [hh1] at hx1
            rw [List.mem_singleton.mp hx1]
            rfl
          · have hh1 : h1 = [] := by cases heq; rfl
            rw [hh1] at hx1
            cases hx1
          · have hh1 : h1 = [log_change Action.delete Reason.nonexistent r.path r.hash] := by
              cases heq; rfl
            rw [hh1] at hx1
            rw [List.mem_singleton.mp hx1]
            rfl
        · exact ih db1 db2 h2 c2 hpl x hx2

end FileTracker

namespace FileTracker

theorem register_entry_quiet {w : World} {cfg : Int} {db : Db} {p : String}
    (hsd : settled_at w cfg db p) :
    ∃ hh cc nn, register_entry w cfg db p = .ok (db, hh, cc, nn) ∧
      cc.added = 0 ∧ cc.updated = 0 ∧ cc.deleted = 0 ∧
      ∀ e r, lookup_live w p = some e → e.is_regular = true → e.fs_id = cfg →
        get_file db p = some r → has_file_changed r e = false →
        log_change Action.skip Reason.unchanged p e.content_hash ∈ hh := by
  cases hl : lookup_live w p with
  | none =>
    refine ⟨[], czero, 0, register_entry_nolive hl, rfl, rfl, rfl, ?_⟩
    intro e r hl2 _ _ _ _
    cases hl2
  | some e =>
    obtain ⟨hs, hsym, hmatch⟩ := hsd e hl
    cases hr : e.is_regular with
    | false =>
      refine ⟨[], czero, 0, register_entry_nonregular hl hs hr, rfl, rfl, rfl, ?_⟩
      intro e2 r hl2 hr2 _ _ _
      injection hl2 with he2
      subst he2
      rw [hr] at hr2
      cases hr2
    | true =>
      have hy : e.is_symlink = false := hsym hr
      by_cases hf : e.fs_id = cfg
      · cases hg : get_file db p with
        | none =>
          cases hk : e.read_ok with
          | true =>
            obtain ⟨r, hgr, _⟩ := hmatch hr hf hk
            rw [hg] at hgr
            cases hgr
          | false =>
            refine ⟨[], cerr, 0, register_entry_new_perm hl hs hr hy hf hg hk, rfl, rfl, rfl, ?_⟩
            intro e2 r hl2 _ _ hg2 _
            cases hg2
        | some r =>
          cases hc : has_file_changed r e with
          | false =>
            refine ⟨[log_change Action.skip Reason.unchanged p e.content_hash], cskip, 0,
              register_entry_skip hl hs hr hy hf hg hc, rfl, rfl, rfl, ?_⟩
            intro e2 r2 hl2 _ _ hg2 _
            injection hl2 with he2
            subst he2
            exact List.mem_singleton.mpr rfl
          | true =>
            cases hk : e.read_ok with
            | true =>
              obtain ⟨r2, hgr, hc2⟩ := hmatch hr hf hk
              rw [hg] at hgr
              injection hgr with hr2
              subst hr2
              rw [hc] at hc2
              cases hc2
            | false =>
              refine ⟨[], cerr, 0, register_entry_update_perm hl hs hr hy hf hg hc hk,
                rfl, rfl, rfl, ?_⟩
              intro e2 r2 hl2 _ _ hg2 hc2
              injection hl2 with he2
              subst he2
              injection hg2 with hr2
              subst hr2
              rw [hc] at hc2
              cases hc2
      · refine ⟨[log_change Action.error Reason.unexpected_fs_id p e.content_hash], cerr, 0,
          register_entry_badfs hl hs hr hy hf, rfl, rfl, rfl, ?_⟩
        intro e2 r hl2 _ hf2 _ _
        injection hl2 with he2
        subst he2
        exact absurd hf2 hf

theorem register_root_quiet {w : World} {cfg : Int} {db : Db} :
    ∀ ps : List String, (∀ p ∈ ps, settled_at w cfg db p) →
      ∃ hh cc nn, register_root w cfg db ps = .ok (db, hh, cc, nn) ∧
        cc.added = 0 ∧ cc.updated = 0 ∧ cc.deleted = 0 ∧
        ∀ p ∈ ps, ∀ e r, lookup_live w p = some e → e.is_regular = true → e.fs_id = cfg →
          get_file db p = some r → has_file_changed r e = false →
          log_change Action.skip Reason.unchanged p e.content_hash ∈ hh := by
  intro ps
  induction ps with
  | nil =>
    intro _
    refine ⟨[], czero, 0, rfl, rfl, rfl, rfl, ?_⟩
    intro p hp
    cases hp
  | cons q rest ih =>
    intro hsd
    obtain ⟨hh1, cc1, nn1, he, ha1, hu1, hd1, hlog1⟩ :=
      register_entry_quiet (hsd q (List.mem_cons_self q rest))
    obtain ⟨hh2, cc2, nn2, hrr, ha2, hu2, hd2, hlog2⟩ :=
      ih (fun p hp => hsd p (List.mem_cons_of_mem q hp))
    refine ⟨hh1 ++ hh2, Counters.plus cc1 cc2, nn1 + nn2, ?_, ?_, ?_, ?_, ?_⟩
    · simp only [register_root, he, hrr]
    · simp [Counters.plus, ha1, ha2]
    · simp [Counters.plus, hu1, hu2]
    · simp [Counters.plus, hd1, hd2]
    · intro p hp e r hl hr hf hg hc
      rcases List.mem_cons.mp hp with hpq | hptl
      · subst hpq
        exact List.mem_append_left _ (hlog1 e r hl hr hf hg hc)
      · exact List.mem_append_right _ (hlog2 p hptl e r hl hr hf hg hc)

theorem register_roots_quiet {w : World} {db : Db} :
    ∀ roots : List (Int × List String),
      (∀ cfg ps, (cfg, ps) ∈ roots → ∀ p ∈ ps, settled_at w cfg db p) →
      ∃ hh cc nn, register_roots w db roots = .ok (db, hh, cc, nn) ∧
        cc.added = 0 ∧ cc.updated = 0 ∧ cc.deleted = 0 ∧
        ∀ cfg ps, (cfg, ps) ∈ roots → ∀ p ∈ ps, ∀ e r, lookup_live w p = some e →
          e.is_regular = true → e.fs_id = cfg →
          get_file db p = some r → has_file_changed r e = false →
          log_change Action.skip Reason.unchanged p e.content_hash ∈ hh := by
  intro roots
  induction roots with
  | nil =>
    intro _
    refine ⟨[], czero, 0, rfl, rfl, rfl, rfl, ?_⟩
    intro cfg ps hmem
    cases hmem
  | cons root rest ih =>
    obtain ⟨cfg0, ps0⟩ := root
    intro hsd
    obtain ⟨hh1, cc1, nn1, he, ha1, hu1, hd1, hlog1⟩ :=
      register_root_quiet ps0 (hsd cfg0 ps0 (List.mem_cons_self _ _))
    obtain ⟨hh2, cc2, nn2, hrr, ha2, hu2, hd2, hlog2⟩ :=
      ih (fun cfg ps hm => hsd cfg ps (List.mem_cons_of_mem _ hm))
    refine ⟨hh1 ++ hh2, Counters.plus cc1 cc2, nn1 + nn2, ?_, ?_, ?_, ?_, ?_⟩
    · simp only [register_roots, he, hrr]
    · simp [Counters.plus, ha1, ha2]
    · simp [Counters.plus, hu1, hu2]
    · simp [Counters.plus, hd1, hd2]
    · intro cfg ps hmem p hp e r hl hr hf hg hc
      rcases List.mem_cons.mp hmem with hhead | htl
      · have hc1 : cfg0 = cfg := congrArg Prod.fst hhead.symm
        have hc2 : ps0 = ps := congrArg Prod.snd hhead.symm
        subst hc1
        subst hc2
        exact List.mem_append_left _ (hlog1 p hp e r hl hr hf hg hc)
      · exact List.mem_append_right _ (hlog2 cfg ps htl p hp e r hl hr hf hg hc)

end FileTracker

namespace FileTracker

/-- Counterexample to C2 as stated: in the world `w2x` the store `db2x`
tracks the live regular file `"p"` (its stored fs id 2 is in the configured
set, so prune keeps it), but the root that walks `"p"` is configured with fs
id 1 while the file lives on fs 2.  A completed pass returns the store
unchanged, so the second pass is this very same run: it indeed performs
zero insert/update/delete actions, but the tracked file `"p"` is logged
`error/unexpected_fs_id` and never `skip/unchanged`, refuting "every tracked
file is logged skip/unchanged". -/
theorem C2_cex_tracked_file_not_skipped :
    run_pass w2x db2x = .ok (db2x,
      [log_change Action.error Reason.unexpected_fs_id "p" h32x], Counters.mk 0 0 0 0 1, 0) ∧
    db2x.files.map DbRecord.path = ["p"] ∧
    ∀ x ∈ [log_change Action.error Reason.unexpected_fs_id "p" h32x],
      ¬(x.action = Action.skip) := by
  refine ⟨by decide, by decide, by decide⟩

/-- C2 (amended): immediately after a completed reconciliation pass, with no
filesystem change in between, a second pass completes, leaves the store
exactly unchanged, performs zero insert, update and delete actions, and
every file that the first pass inserted (`new`), updated (`update`) or
skipped (`skip`) is logged `skip/unchanged` by the second pass.  (Files the
first pass logged `error/unexpected_fs_id`, and store records lying outside
every walked root, are not logged `skip/unchanged` — the counterexample
shows the original "every tracked file" claim fails for them.) -/
theorem C2_second_pass_idempotent (w : World) (db db1 : Db) (h1 : List HistEntry)
    (c1 : Counters) (n1 : Nat)
    (hpass : run_pass w db = .ok (db1, h1, c1, n1)) :
    ∃ h2 c2 n2,
      run_pass w db1 = .ok (db1, h2, c2, n2) ∧
      c2.added = 0 ∧ c2.updated = 0 ∧ c2.deleted = 0 ∧
      ∀ x ∈ h1, (x.action = Action.skip ∨ x.action = Action.new ∨ x.action = Action.update) →
        HistEntry.mk Action.skip Reason.unchanged x.path none ∈ h2 := by
  cases hpr : prune_deleted_files w db with
  | error err => simp [run_pass, hpr] at hpass
  | ok outP =>
    obtain ⟨dbA, hP, cP⟩ := outP
    cases hreg : register_new_files w dbA with
    | error err => simp [run_pass, hpr, hreg] at hpass
    | ok outR =>
      obtain ⟨dbR, hR, cR, nR⟩ := outR
      simp only [run_pass, hpr, hreg, Except.ok.injEq, Prod.mk.injEq] at hpass
      obtain ⟨hdb, hh, hc, hn⟩ := hpass
      subst hdb
      subst hh
      have hallow : ∀ cfg ps, (cfg, ps) ∈ w.roots →
          (w.roots.map Prod.fst).contains cfg = true := by
        intro cfg ps hm
        have hmm : cfg ∈ w.roots.map Prod.fst := List.mem_map_of_mem Prod.fst hm
        exact List.elem_iff.mpr hmm
      have hpr2 : prune_list w (w.roots.map Prod.fst) db db.files = .ok (dbA, hP, cP) := hpr
      have hstA : ∀ r ∈ dbA.files, stable_rec w (w.roots.map Prod.fst) r := by
        intro r hr
        exact prune_list_stable_post db.files db dbA hP cP hpr2 r hr
          (prune_list_sub db.files db dbA hP cP hpr2 r hr)
      have hreg2 : register_roots w dbA w.roots = .ok (dbR, hR, cR, nR) := hreg
      have hstR : ∀ r ∈ dbR.files, stable_rec w (w.roots.map Prod.fst) r :=
        register_roots_preserves_stable w.roots dbA dbR hR cR nR hallow hreg2 hstA
      have hsettle : ∀ cfg ps, (cfg, ps) ∈ w.roots → ∀ p ∈ ps, settled_at w cfg dbR p := by
        intro cfg ps hm p hp e hl
        obtain ⟨hs, hsym⟩ :=
          register_roots_walk_conditions w.roots dbA dbR hR cR nR hreg2 cfg ps hm p hp e hl
        refine ⟨hs, hsym, ?_⟩
        intro hr hf hk
        obtain ⟨e2, r, hl2, hg, hc2⟩ :=
          register_roots_settles w.roots dbA dbR hR cR nR hreg2 cfg ps hm p hp e hl hr hf hk
        rw [hl] at hl2
        injection hl2 with he2
        subst he2
        exact ⟨r, hg, hc2⟩
      obtain ⟨H2, C2v, N2, hq, hqa, hqu, hqd, hqlog⟩ := register_roots_quiet w.roots hsettle
      have hprune2 : prune_deleted_files w dbR = .ok (dbR, [], czero) :=
        prune_list_quiet dbR.files dbR (fun r hr => hstR r hr)
      refine ⟨H2, C2v, N2, ?_, hqa, hqu, hqd, ?_⟩
      · have hq2 : register_new_files w dbR = .ok (dbR, H2, C2v, N2) := hq
        simp only [run_pass, hprune2, hq2, List.nil_append, Counters.czero_plus]
      · intro x hx hact
        rcases List.mem_append.mp hx with hxP | hxR
        · have hdel := prune_list_hist db.files db dbA hP cP hpr2 x hxP
          rcases hact with ha | ha | ha <;> rw [hdel] at ha <;> cases ha
        · obtain ⟨cfg, ps, hm, hpin, e, hl, hr, hf, hmatch⟩ :=
            register_roots_hist w.roots dbA dbR hR cR nR hreg2 x hxR hact
          obtain ⟨e2, r, hl2, hg, hc2⟩ := hmatch
          rw [hl] at hl2
          injection hl2 with he2
          subst he2
          have hskip := hqlog cfg ps hm x.path hpin e r hl hr hf hg hc2
          have hent : log_change Action.skip Reason.unchanged x.path e.content_hash =
              HistEntry.mk Action.skip Reason.unchanged x.path none := by
            simp [log_change]
          rw [hent] at hskip
          exact hskip

/-- Witness for the amended C2: the first pass over `w1x` on the empty store
inserts the file `"p"`; the theorem then yields a quiet second pass in which
`"p"` is logged `skip/unchanged`. -/
theorem C2_second_pass_idempotent_witness :
    run_pass w1x dbe = .ok ({ readonly := false, files := [mk_record "p" e1x] },
      [log_change Action.new Reason.new_file "p" h32x], Counters.mk 1 0 0 0 0, 1) ∧
    (∃ h2 c2 n2,
      run_pass w1x { readonly := false, files := [mk_record "p" e1x] } =
        .ok ({ readonly := false, files := [mk_record "p" e1x] }, h2, c2, n2) ∧
      c2.added = 0 ∧ c2.updated = 0 ∧ c2.deleted = 0 ∧
      ∀ x ∈ [log_change Action.new Reason.new_file "p" h32x],
        (x.action = Action.skip ∨ x.action = Action.new ∨ x.action = Action.update) →
        HistEntry.mk Action.skip Reason.unchanged x.path none ∈ h2) :=
  ⟨by decide,
    C2_second_pass_idempotent w1x dbe { readonly := false, files := [mk_record "p" e1x] }
      [log_change Action.new Reason.new_file "p" h32x] (Counters.mk 1 0 0 0 0) 1 (by decide)⟩

end FileTracker
